import Mathlib

/-!
A shallow embedding of the core of the CardsForge repository
(`cardforge.domain.inventory`, `cardforge.domain.player`,
`cardforge.domain.economy`, `cardforge.domain.cards`,
`cardforge.domain.drop_strategies`, `cardforge.loaders.json_loader`),
with theorems settling the frozen claims about the drop engine, the
player/wallet service and the catalog validator.

Modelling conventions:
* Python `dict[str, int]` / `dict[str, float]` values are embedded as
  insertion-ordered association lists (`List (String × _)`); `d.get(k, 0)`
  is `dictGet`, `d[k] = v` is `dictSet` (update in place, append if new).
* Python `float` is embedded as `ℚ`; `int(x)` truncation toward zero is
  `pyInt`.
* `datetime` values are embedded at one-second granularity as a wall-clock
  second count together with an optional UTC offset (`none` = naive).
* Fallible code returns `Except Err _`; each raise site keeps the message
  built by the source.
-/

namespace CardForge

/-- Single-quote character, used to build the validator error strings. -/
def sq : String := String.singleton (Char.ofNat 39)

/-- Wrap a string in single quotes, as the validator f-strings do. -/
def quoted (s : String) : String := sq ++ s ++ sq

/-- Python `d.get(k, 0)` on a string-keyed integer dict. -/
def dictGet (d : List (String × Int)) (k : String) : Int :=
  (d.lookup k).getD 0

/-- Python `d[k] = v`: update the entry in place, appending if absent. -/
def dictSet (d : List (String × Int)) (k : String) (v : Int) : List (String × Int) :=
  if (d.lookup k).isSome then
    d.map (fun p => if p.1 = k then (k, v) else p)
  else
    d ++ [(k, v)]

/-- Python `int(x)` on a float: truncation toward zero. -/
def pyInt (q : ℚ) : Int :=
  if 0 ≤ q then ⌊q⌋ else ⌈q⌉

/-- A Python `datetime` at one-second granularity: wall-clock seconds plus
the `tzinfo` UTC offset in seconds (`none` = timezone-naive). -/
structure PyDT where
  wall : Int
  off : Option Int := none
deriving DecidableEq, Repr

/-- The instant a `datetime` denotes once normalized to UTC, as done by
`_cooldown_remaining`: a naive timestamp is taken to already be UTC
(`replace(tzinfo=utc)`), an aware one is converted (`astimezone(utc)`). -/
def PyDT.toUTC (d : PyDT) : Int :=
  match d.off with
  | none => d.wall
  | some o => d.wall - o

/-- `now + timedelta(seconds=s)`. -/
def PyDT.addSeconds (d : PyDT) (s : Int) : PyDT :=
  { wall := d.wall + s, off := d.off }

/-- `cardforge.domain.cards.Rarity`. -/
inductive Rarity where
  | common
  | uncommon
  | rare
  | epic
  | legendary
deriving DecidableEq, Repr

/-- `Rarity.value`: the string value of the enum member. -/
def Rarity.val : Rarity → String
  | .common => "common"
  | .uncommon => "uncommon"
  | .rare => "rare"
  | .epic => "epic"
  | .legendary => "legendary"

/-- `cardforge.domain.cards.CardReward`. -/
structure CardReward where
  currencies : List (String × Int) := []
  experience : Int := 0
deriving DecidableEq, Repr

/-- `CardReward.merge`: start from `self`, add each of `other`'s entries. -/
def CardReward.merge (self other : CardReward) : CardReward :=
  { currencies :=
      other.currencies.foldl
        (fun merged p => dictSet merged p.1 (dictGet merged p.1 + p.2))
        self.currencies,
    experience := self.experience + other.experience }

/-- `cardforge.domain.cards.Card`. -/
structure Card where
  card_id : String
  name : String := ""
  description : String := ""
  rarity : Rarity := .common
  max_copies : Option Int := none
  reward : CardReward := {}
  tags : List String := []
  image_url : Option String := none
  image_caption : Option String := none
  image_path : Option String := none
  drop_weight : Option ℚ := none
deriving DecidableEq, Repr

instance : Inhabited Card := ⟨{ card_id := "" }⟩

/-- `cardforge.domain.cards.CardPack`. -/
structure CardPack where
  pack_id : String
  name : String := ""
  cards : List String := []
  allow_duplicates : Bool := true
  max_per_roll : Nat := 1
  card_weights : Option (List (String × ℚ)) := none
  rarity_weights : Option (List (String × ℚ)) := none
deriving DecidableEq, Repr

/-- `cardforge.domain.cards.CardCatalog`: cards and packs keyed by id. -/
structure CardCatalog where
  cards : List (String × Card) := []
  packs : List (String × CardPack) := []
deriving DecidableEq, Repr

/-- The repository-level error taxonomy: each constructor stands for one
exception class raised by the embedded code, carrying its message. -/
inductive Err where
  | valueError (msg : String)
  | keyError (msg : String)
  | playerBanned (msg : String)
  | cooldownActive (remaining : Int)
  | noCardsAvailable (msg : String)
  | insufficientCurrency (msg : String)
deriving DecidableEq, Repr

instance {e a : Type} [DecidableEq e] [DecidableEq a] : DecidableEq (Except e a) :=
  fun x y =>
    match x, y with
    | .ok u, .ok v => if h : u = v then isTrue (by rw [h]) else isFalse (by simp [h])
    | .error u, .error v => if h : u = v then isTrue (by rw [h]) else isFalse (by simp [h])
    | .ok _, .error _ => isFalse (by simp)
    | .error _, .ok _ => isFalse (by simp)

/-- `CardCatalog.get_card` (raises `KeyError` for an unknown id). -/
def getCard (cat : CardCatalog) (card_id : String) : Except Err Card :=
  match cat.cards.lookup card_id with
  | some c => .ok c
  | none => .error (.keyError ("Card " ++ card_id ++ " not found"))

/-- `CardCatalog.get_pack` (raises `KeyError` for an unknown id). -/
def getPack (cat : CardCatalog) (pack_id : String) : Except Err CardPack :=
  match cat.packs.lookup pack_id with
  | some p => .ok p
  | none => .error (.keyError ("Pack " ++ pack_id ++ " not found"))

/-- `cardforge.domain.economy.Wallet`. -/
structure Wallet where
  balances : List (String × Int) := []
deriving DecidableEq, Repr

/-- `Wallet.credit` (raises `ValueError` on a negative amount). -/
def Wallet.credit (w : Wallet) (currency : String) (amount : Int) : Except Err Wallet :=
  if amount < 0 then .error (.valueError "Cannot credit negative amount")
  else .ok { balances := dictSet w.balances currency (dictGet w.balances currency + amount) }

/-- `Wallet.debit` (raises `ValueError` on a negative amount or an
insufficient balance). -/
def Wallet.debit (w : Wallet) (currency : String) (amount : Int) : Except Err Wallet :=
  if amount < 0 then .error (.valueError "Cannot debit negative amount")
  else
    let current := dictGet w.balances currency
    if current < amount then
      .error (.valueError
        ("Insufficient " ++ currency ++ ": have " ++ toString current ++
          ", need " ++ toString amount))
    else .ok { balances := dictSet w.balances currency (current - amount) }

/-- `Wallet.merge`: credit non-negative reward entries, debit negative ones,
in insertion order, propagating the first failure. -/
def Wallet.mergeRewards (w : Wallet) (rewards : List (String × Int)) : Except Err Wallet :=
  match rewards with
  | [] => .ok w
  | (currency, amount) :: rest =>
    match (if 0 ≤ amount then w.credit currency amount else w.debit currency (-amount)) with
    | .error e => .error e
    | .ok w2 => w2.mergeRewards rest

/-- `CurrencyRegistry.ensure_codes` over the list of registered codes:
raise `KeyError` at the first unregistered code. -/
def ensureCodes (registered : List String) : List String → Except Err Unit
  | [] => .ok ()
  | c :: rest =>
    if registered.contains c then ensureCodes registered rest
    else .error (.keyError ("Currency " ++ c ++ " is not configured"))

/-- `cardforge.config.DropConfig`. -/
structure DropConfig where
  base_cooldown_seconds : Int := 3600
  allow_duplicates : Bool := true
  duplicate_penalty : ℚ := 0
  max_cards_per_drop : Nat := 1
  rarity_weights : List (String × ℚ) := []
deriving DecidableEq, Repr

/-- `cardforge.storage.base.PlayerRecord`. -/
structure PlayerRecord where
  user_id : Int
  username : Option String := none
  inventory : List (String × Int) := []
  wallet : List (String × Int) := []
  experience : Int := 0
  last_drop_at : Option PyDT := none
  is_banned : Bool := false
deriving DecidableEq, Repr

/-- The two shipped `cardforge.domain.drop_strategies` variants. -/
inductive DuplicateStrategy where
  | penalty
  | dust (currency : String) (amount : Int)
deriving DecidableEq, Repr

/-- `DuplicateStrategy.handle` for the two shipped strategies:
`PenaltyDuplicateStrategy` scales the card reward by `duplicate_penalty`
(truncating to int), `DustDuplicateStrategy` grants a flat amount of one
currency. -/
def DuplicateStrategy.handle (s : DuplicateStrategy) (card : Card)
    (_player : PlayerRecord) (config : DropConfig) : CardReward :=
  match s with
  | .penalty =>
    if config.duplicate_penalty ≤ 0 then {}
    else
      { currencies :=
          card.reward.currencies.map
            (fun p => (p.1, pyInt ((p.2 : ℚ) * config.duplicate_penalty))),
        experience := pyInt ((card.reward.experience : ℚ) * config.duplicate_penalty) }
  | .dust currency amount =>
    if amount ≤ 0 then {}
    else { currencies := [(currency, amount)], experience := 0 }

/-- `InventoryService._cooldown_remaining`: clamp
`base_cooldown_seconds - (now - last_drop_at)` to `≥ 0` after normalizing
both timestamps to UTC; a missing `last_drop_at` yields `0`. -/
def cooldownRemaining (cfg : DropConfig) (record : PlayerRecord) (now : PyDT) : Int :=
  match record.last_drop_at with
  | none => 0
  | some last =>
    let delta := now.toUTC - last.toUTC
    max 0 (cfg.base_cooldown_seconds - delta)

/-- Stage (d) of `InventoryService._card_weight`: the global per-rarity
weight (`if rarity_weight and rarity_weight > 0`), else `1.0`. -/
def cardWeightGlobalRarity (cfg : DropConfig) (card : Card) : ℚ :=
  match cfg.rarity_weights.lookup card.rarity.val with
  | some w => if w ≠ 0 ∧ 0 < w then w else 1
  | none => 1

/-- Stage (c) of `InventoryService._card_weight`: the pack per-rarity
weight (guarded by the truthiness of `pack.rarity_weights`), falling
through to the global per-rarity stage. -/
def cardWeightPackRarity (cfg : DropConfig) (pack : CardPack) (card : Card) : ℚ :=
  match pack.rarity_weights with
  | some rw =>
    if rw.isEmpty then cardWeightGlobalRarity cfg card
    else
      match rw.lookup card.rarity.val with
      | some w => if w ≠ 0 ∧ 0 < w then w else cardWeightGlobalRarity cfg card
      | none => cardWeightGlobalRarity cfg card
  | none => cardWeightGlobalRarity cfg card

/-- Stage (b) of `InventoryService._card_weight`: the card's intrinsic
`drop_weight` (`if card.drop_weight and card.drop_weight > 0`). -/
def cardWeightIntrinsic (cfg : DropConfig) (pack : CardPack) (card : Card) : ℚ :=
  match card.drop_weight with
  | some w => if w ≠ 0 ∧ 0 < w then w else cardWeightPackRarity cfg pack card
  | none => cardWeightPackRarity cfg pack card

/-- `InventoryService._card_weight`: stage (a) is the pack's per-card
override (`if pack.card_weights and card.card_id in pack.card_weights`),
falling through stages (b), (c), (d) to the default `1.0`. -/
def cardWeight (cfg : DropConfig) (pack : CardPack) (card : Card) : ℚ :=
  match pack.card_weights with
  | some cw =>
    if cw.isEmpty then cardWeightIntrinsic cfg pack card
    else
      match cw.lookup card.card_id with
      | some w => if 0 < w then w else cardWeightIntrinsic cfg pack card
      | none => cardWeightIntrinsic cfg pack card
  | none => cardWeightIntrinsic cfg pack card

/-- `InventoryService._uniform_index`: `int(rng.random() * len(weights))`. -/
def uniformIndex (r : ℚ) (n : Nat) : Nat :=
  (pyInt (r * n)).toNat

/-- The loop of `InventoryService._weighted_index`: walk the weights
accumulating a running sum, returning the first index whose cumulative sum
reaches the threshold. -/
def cumulFind (threshold : ℚ) : ℚ → Nat → List ℚ → Option Nat
  | _, _, [] => none
  | cumulative, idx, w :: rest =>
    let c := cumulative + w
    if threshold ≤ c then some idx else cumulFind threshold c (idx + 1) rest

/-- `InventoryService._weighted_index`: uniform fallback when the total
weight is not positive, otherwise the cumulative walk with the last index
as fallback. `r` stands for the one `rng.random()` draw the call makes. -/
def weightedIndex (weights : List ℚ) (r : ℚ) : Nat :=
  let total := weights.sum
  if total ≤ 0 then uniformIndex r weights.length
  else (cumulFind (r * total) 0 0 weights).getD (weights.length - 1)

/-- `InventoryService._weighted_choice`. -/
def weightedChoice (cards : List Card) (weights : List ℚ) (r : ℚ) : Card :=
  cards.getD (weightedIndex weights r) default

/-- The eligibility test of `InventoryService._filter_cards` for one card. -/
def cardEligible (record : PlayerRecord) (allow_duplicates : Bool) (card : Card) : Bool :=
  let owned := dictGet record.inventory card.card_id
  if allow_duplicates = false ∧ 0 < owned then false
  else
    match card.max_copies with
    | some m => !(decide (m ≤ owned) && !allow_duplicates)
    | none => true

/-- `InventoryService._filter_cards`. -/
def filterCards (cards : List Card) (record : PlayerRecord)
    (allow_duplicates : Bool) : List Card :=
  cards.filter (cardEligible record allow_duplicates)

/-- The with-replacement branch of `InventoryService._draw_cards`: `amount`
independent weighted choices, one random draw each. -/
def drawWith (cards : List Card) (weights : List ℚ) : Nat → List ℚ → List Card
  | 0, _ => []
  | n + 1, rands =>
    weightedChoice cards weights (rands.headD 0) :: drawWith cards weights n rands.tail

/-- The without-replacement branch of `InventoryService._draw_cards`: each
draw pops the chosen card and its weight from the pools. -/
def drawWithout : List Card → List ℚ → Nat → List ℚ → List Card
  | _, _, 0, _ => []
  | pool, wpool, n + 1, rands =>
    let idx := weightedIndex wpool (rands.headD 0)
    pool.getD idx default ::
      drawWithout (pool.eraseIdx idx) (wpool.eraseIdx idx) n rands.tail

/-- `InventoryService._draw_cards`. -/
def drawCards (cfg : DropConfig) (pack : CardPack) (cards : List Card)
    (amount : Nat) (allow_duplicates : Bool) (rands : List ℚ) : List Card :=
  let weights := cards.map (cardWeight cfg pack)
  if allow_duplicates then drawWith cards weights amount rands
  else drawWithout cards weights (min amount cards.length) rands

/-- The per-card body of the drop loop (`drop_from_pack`, lines 76-93):
classify the card against the current in-progress record, either routing it
to the duplicate strategy or incrementing the inventory and merging the
card's reward. -/
def dropStep (strategy : DuplicateStrategy) (cfg : DropConfig)
    (allow_duplicates : Bool) (st : PlayerRecord × List Card × CardReward)
    (card : Card) : PlayerRecord × List Card × CardReward :=
  let record := st.1
  let dups := st.2.1
  let reward := st.2.2
  let current_qty := dictGet record.inventory card.card_id
  if allow_duplicates = false ∧ current_qty ≠ 0 then
    (record, dups ++ [card], reward.merge (strategy.handle card record cfg))
  else
    match card.max_copies with
    | some m =>
      if m ≤ current_qty then
        (record, dups ++ [card], reward.merge (strategy.handle card record cfg))
      else
        ({ record with inventory := dictSet record.inventory card.card_id (current_qty + 1) },
          dups, reward.merge card.reward)
    | none =>
      ({ record with inventory := dictSet record.inventory card.card_id (current_qty + 1) },
        dups, reward.merge card.reward)

/-- The full drop loop over the drawn cards. -/
def processDrawn (strategy : DuplicateStrategy) (cfg : DropConfig)
    (allow_duplicates : Bool) (record : PlayerRecord)
    (drawn : List Card) : PlayerRecord × List Card × CardReward :=
  drawn.foldl (dropStep strategy cfg allow_duplicates) (record, [], {})

/-- `[self._catalog.get_card(cid) for cid in pack.cards]`: the first
`KeyError` aborts the whole comprehension. -/
def getCards (cat : CardCatalog) : List String → Except Err (List Card)
  | [] => .ok []
  | cid :: rest =>
    match getCard cat cid with
    | .error e => .error e
    | .ok c =>
      match getCards cat rest with
      | .error e => .error e
      | .ok cs => .ok (c :: cs)

/-- `cardforge.domain.inventory.DropOutcome`. -/
structure DropOutcome where
  cards : List Card
  reward : CardReward
  duplicates : List Card
  next_drop_at : PyDT
deriving DecidableEq, Repr

/-- Lines 74-131 of `drop_from_pack`: the drop loop over the drawn cards,
the reward currency-code check, the wallet merge and the outcome
construction. The returned record is the one passed to
`player_store.save`. -/
def dropFinish (registered : List String) (cfg : DropConfig)
    (strategy : DuplicateStrategy) (record : PlayerRecord) (now : PyDT)
    (allow_duplicates : Bool) (drawn : List Card) :
    Except Err (DropOutcome × PlayerRecord) :=
  let st := processDrawn strategy cfg allow_duplicates record drawn
  let record1 := st.1
  let duplicates := st.2.1
  let reward := st.2.2
  match (if reward.currencies.isEmpty then .ok ()
         else ensureCodes registered (reward.currencies.map Prod.fst)) with
  | .error e => .error e
  | .ok _ =>
    match Wallet.mergeRewards { balances := record1.wallet } reward.currencies with
    | .error e => .error e
    | .ok wallet =>
      let record2 :=
        { record1 with
          wallet := wallet.balances,
          experience := record1.experience + reward.experience,
          last_drop_at := some now }
      .ok ({ cards := drawn,
             reward := reward,
             duplicates := duplicates,
             next_drop_at := now.addSeconds cfg.base_cooldown_seconds },
           record2)

/-- `drop_from_pack` after the ban and cooldown guards (lines 63-131):
resolve the pack and its cards, filter, draw, then run the loop and reward
tail (`dropFinish`). -/
def dropCore (cat : CardCatalog) (registered : List String) (cfg : DropConfig)
    (strategy : DuplicateStrategy) (record : PlayerRecord) (now : PyDT)
    (pack_id : String) (rands : List ℚ) : Except Err (DropOutcome × PlayerRecord) :=
  match getPack cat pack_id with
  | .error e => .error e
  | .ok pack =>
    let allow_duplicates := cfg.allow_duplicates && pack.allow_duplicates
    match getCards cat pack.cards with
    | .error e => .error e
    | .ok cards =>
      let eligible := filterCards cards record allow_duplicates
      if eligible.isEmpty then
        .error (.noCardsAvailable ("No cards available for pack " ++ pack_id))
      else
        let draw_count := min pack.max_per_roll (min cfg.max_cards_per_drop eligible.length)
        dropFinish registered cfg strategy record now allow_duplicates
          (drawCards cfg pack eligible draw_count allow_duplicates rands)

/-- `InventoryService.drop_from_pack`: ban guard, cooldown guard, then the
core drop flow. `rands` stands for the successive `rng.random()` draws. -/
def dropFromPack (cat : CardCatalog) (registered : List String) (cfg : DropConfig)
    (strategy : DuplicateStrategy) (record : PlayerRecord) (now : PyDT)
    (pack_id : String) (rands : List ℚ) : Except Err (DropOutcome × PlayerRecord) :=
  if record.is_banned then
    .error (.playerBanned ("User " ++ toString record.user_id ++ " is banned"))
  else
    let remaining := cooldownRemaining cfg record now
    if 0 < remaining then .error (.cooldownActive remaining)
    else dropCore cat registered cfg strategy record now pack_id rands

/-- `PlayerService.spend`: reject non-positive amounts, debit a copy of the
wallet (converting the failure to `InsufficientCurrency`), persist. -/
def spend (record : PlayerRecord) (currency : String) (amount : Int) :
    Except Err PlayerRecord :=
  if amount ≤ 0 then .error (.valueError "Amount must be positive")
  else
    match Wallet.debit { balances := record.wallet } currency amount with
    | .error (.valueError msg) => .error (.insufficientCurrency msg)
    | .error e => .error e
    | .ok w => .ok { record with wallet := w.balances }

/-- `PlayerService.credit`: reject non-positive amounts, credit a copy of
the wallet, persist. -/
def credit (record : PlayerRecord) (currency : String) (amount : Int) :
    Except Err PlayerRecord :=
  if amount ≤ 0 then .error (.valueError "Amount must be positive")
  else
    match Wallet.credit { balances := record.wallet } currency amount with
    | .error e => .error e
    | .ok w => .ok { record with wallet := w.balances }

/-- `PlayerService.add_card`: reject non-positive quantities, look the card
up when a catalog is attached, enforce the max-copies cap, then add. -/
def addCard (catalog : Option CardCatalog) (record : PlayerRecord)
    (card_id : String) (quantity : Int) : Except Err PlayerRecord :=
  if quantity ≤ 0 then .error (.valueError "Quantity must be positive")
  else
    let current := dictGet record.inventory card_id
    let lookup : Except Err (Option Int) :=
      match catalog with
      | none => .ok none
      | some cat =>
        match getCard cat card_id with
        | .error e => .error e
        | .ok card => .ok card.max_copies
    match lookup with
    | .error e => .error e
    | .ok max_copies =>
      match max_copies with
      | some m =>
        if m ≤ current then
          .error (.noCardsAvailable ("Cannot grant card " ++ card_id ++ ": limit reached"))
        else .ok { record with inventory := dictSet record.inventory card_id (current + quantity) }
      | none =>
        .ok { record with inventory := dictSet record.inventory card_id (current + quantity) }

/-- `PlayerService.grant_experience`: clamp the result at zero; a zero
amount is a no-op. -/
def grantExperience (record : PlayerRecord) (amount : Int) : PlayerRecord :=
  if amount = 0 then record
  else { record with experience := max 0 (record.experience + amount) }

/-- The record left in the player store after a service call: the stores
persist the new record on success, and these operations mutate nothing
before their raise sites, so a failure leaves the old record. -/
def persistAfter (record : PlayerRecord) (result : Except Err PlayerRecord) : PlayerRecord :=
  match result with
  | .ok r => r
  | .error _ => record

/-- A decoded JSON value, as produced by `json.loads`. -/
inductive JVal where
  | null
  | bool (b : Bool)
  | int (n : Int)
  | num (q : ℚ)
  | str (s : String)
  | arr (items : List JVal)
  | obj (fields : List (String × JVal))

/-- Python `str.strip()` with no argument: drop leading and trailing
whitespace. Implemented over the character list so that it evaluates
inside the kernel (the validator only tests the result for emptiness). -/
def pyStrip (s : String) : String :=
  String.mk (((s.data.dropWhile Char.isWhitespace).reverse.dropWhile
    Char.isWhitespace).reverse)

/-- Python `dict.get(k)`: a JSON `null` value and a missing key both read
back as `None`. -/
def jGetPy (fields : List (String × JVal)) (k : String) : Option JVal :=
  match fields.lookup k with
  | some .null => none
  | v => v

/-- Python `dict.get(k, default)`: the default applies only to a missing
key, a stored `null` is returned as-is. -/
def jGetD (fields : List (String × JVal)) (k : String) (dflt : JVal) : JVal :=
  match fields.lookup k with
  | none => dflt
  | some v => v

/-- Python `isinstance(v, int)`; a `bool` is an `int` in Python. -/
def pyIsInt : JVal → Bool
  | .int _ => true
  | .bool _ => true
  | _ => false

/-- Python `isinstance(v, (int, float))`; a `bool` counts as an `int`. -/
def pyIsNum : JVal → Bool
  | .int _ => true
  | .bool _ => true
  | .num _ => true
  | _ => false

/-- The integer value of a Python int (with `True == 1`, `False == 0`);
only consulted after `pyIsInt` holds. -/
def pyIntVal : JVal → Int
  | .int n => n
  | .bool b => if b then 1 else 0
  | _ => 0

/-- `float(v)` for a Python number; only consulted after `pyIsNum` holds. -/
def pyNumVal : JVal → ℚ
  | .int n => n
  | .bool b => if b then 1 else 0
  | .num q => q
  | _ => 0

/-- `str()` of a float, as interpolated into validator messages. Exact for
integral floats; non-integral floats are rendered as rationals, an
approximation of Python's shortest-repr formatting. -/
def pyFloatStr (q : ℚ) : String :=
  if q.den = 1 then toString q.num ++ ".0" else toString q

/-- `str()` of a JSON value (or of `None`), as interpolated into the
validator's f-string error messages. Containers are abbreviated; no claim
depends on their rendering. -/
def pyStr : Option JVal → String
  | none => "None"
  | some .null => "None"
  | some (.bool true) => "True"
  | some (.bool false) => "False"
  | some (.int n) => toString n
  | some (.num q) => pyFloatStr q
  | some (.str s) => s
  | some (.arr _) => "[...]"
  | some (.obj _) => "\x7b...\x7d"

/-- The five valid rarity strings; `Rarity(v)` succeeds exactly on these. -/
def rarityStrings : List String := ["common", "uncommon", "rare", "epic", "legendary"]

/-- `try: Rarity(value) except: ...` — valid iff the value is one of the
five rarity strings. -/
def isValidRarity : Option JVal → Bool
  | some (.str s) => rarityStrings.contains s
  | _ => false

/-- `card_id in card_ids` where the element may be any JSON value. -/
def jvalStrMem (v : JVal) (ids : List String) : Bool :=
  match v with
  | .str s => ids.contains s
  | _ => false

/-- The currencies loop of `validate_catalog_dict`: accumulate errors and
the set of declared codes (the `continue`s skip the rest of one entry). -/
def currenciesFold (codes : List String) (errs : List String) (idx : Nat) :
    List JVal → List String × List String
  | [] => (errs, codes)
  | e :: rest =>
    match e with
    | .obj fields =>
      match jGetPy fields "code" with
      | some (.str c) =>
        if pyStrip c = "" then
          currenciesFold codes
            (errs ++ ["Currency #" ++ toString idx ++ " must define non-empty " ++
              quoted "code" ++ "."]) (idx + 1) rest
        else
          currenciesFold (codes ++ [c])
            (errs ++ (if codes.contains c then
              ["Currency code " ++ quoted c ++ " defined multiple times."] else []))
            (idx + 1) rest
      | _ =>
        currenciesFold codes
          (errs ++ ["Currency #" ++ toString idx ++ " must define non-empty " ++
            quoted "code" ++ "."]) (idx + 1) rest
    | _ =>
      currenciesFold codes
        (errs ++ ["Currency #" ++ toString idx ++ " must be an object."]) (idx + 1) rest

/-- The `"coins"` base-currency error string. -/
def coinsMsg : String :=
  "Currency " ++ quoted "coins" ++ " must be defined in catalog."

/-- The currencies section of `validate_catalog_dict`: errors plus the
declared code set. The `coins` presence check runs only when the
`currencies` field is a non-empty list. -/
def validateCurrencies (data : List (String × JVal)) : List String × List String :=
  match jGetPy data "currencies" with
  | some (.arr entries) =>
    if entries.isEmpty then
      (["Catalog must contain non-empty " ++ quoted "currencies" ++ " array."], [])
    else
      let r := currenciesFold [] [] 1 entries
      (r.1 ++ (if r.2.contains "coins" then [] else [coinsMsg]), r.2)
  | _ => (["Catalog must contain non-empty " ++ quoted "currencies" ++ " array."], [])

/-- The reward checks for one card entry (lines 181-203 of the source). -/
def rewardErrors (currency_codes : List String) (cid : String)
    (rfields : List (String × JVal)) : List String :=
  let expErrs :=
    match rfields.lookup "experience" with
    | none => ["Card " ++ quoted cid ++ " reward must include " ++ quoted "experience" ++ "."]
    | some v =>
      if pyIsInt v ∧ 0 ≤ pyIntVal v then []
      else ["Card " ++ quoted cid ++ " reward " ++ quoted "experience" ++
        " must be non-negative integer."]
  let curErrs :=
    match jGetPy rfields "currencies" with
    | some (.obj curs) =>
      if curs.isEmpty then
        ["Card " ++ quoted cid ++ " reward must include " ++ quoted "currencies" ++
          " dictionary."]
      else
        (if currency_codes.isEmpty then []
         else
           curs.foldl
             (fun acc p =>
               acc ++
                 (if currency_codes.contains p.1 then []
                  else ["Card " ++ quoted cid ++ " reward references unknown currency " ++
                    quoted p.1 ++ "."]) ++
                 (if pyIsInt p.2 ∧ 0 ≤ pyIntVal p.2 then []
                  else ["Card " ++ quoted cid ++ " reward currency " ++ quoted p.1 ++
                    " amount must be non-negative integer."]))
             []) ++
        (if (curs.lookup "coins").isSome then []
         else ["Card " ++ quoted cid ++ " reward must include " ++ quoted "coins" ++
           " currency."])
    | _ =>
      ["Card " ++ quoted cid ++ " reward must include " ++ quoted "currencies" ++
        " dictionary."]
  expErrs ++ curErrs

/-- The image checks for one card entry (lines 205-217 of the source). -/
def imageErrors (cid : String) (fields : List (String × JVal)) : List String :=
  match jGetPy fields "image" with
  | none => []
  | some (.obj ifields) =>
    let iurl := jGetPy ifields "url"
    let ilocal := jGetPy ifields "local"
    (match iurl with
     | none => []
     | some (.str s) =>
       if pyStrip s = "" then
         ["Card " ++ quoted cid ++ " image.url must be a non-empty string."] else []
     | some _ => ["Card " ++ quoted cid ++ " image.url must be a non-empty string."]) ++
    (match ilocal with
     | none => []
     | some (.str s) =>
       if pyStrip s = "" then
         ["Card " ++ quoted cid ++ " image.local must be a non-empty string."] else []
     | some _ => ["Card " ++ quoted cid ++ " image.local must be a non-empty string."]) ++
    (if iurl.isNone ∧ ilocal.isNone then
       ["Card " ++ quoted cid ++ " image must define either " ++ quoted "url" ++
         " or " ++ quoted "local" ++ "."]
     else [])
  | some _ => ["Card " ++ quoted cid ++ " image must be an object."]

/-- The checks run for one card entry after its id has been accepted. -/
def cardEntryErrors (currency_codes : List String) (cid : String)
    (fields : List (String × JVal)) : List String :=
  let fieldErrs :=
    ["name", "description", "rarity"].foldl
      (fun acc f =>
        acc ++
          (match jGetPy fields f with
           | some (.str s) =>
             if pyStrip s = "" then
               ["Card " ++ quoted cid ++ " must define non-empty " ++ quoted f ++ "."]
             else []
           | _ => ["Card " ++ quoted cid ++ " must define non-empty " ++ quoted f ++ "."]))
      []
  let rarityErrs :=
    if isValidRarity (jGetPy fields "rarity") then []
    else ["Card " ++ quoted cid ++ " has invalid rarity " ++
      quoted (pyStr (jGetPy fields "rarity")) ++ "."]
  let mcErrs :=
    match jGetPy fields "maxCopies" with
    | none => []
    | some v =>
      if pyIsInt v ∧ 0 < pyIntVal v then []
      else ["Card " ++ quoted cid ++ " has invalid " ++ quoted "maxCopies" ++
        " value " ++ quoted (pyStr (some v)) ++ "."]
  let wErrs :=
    match jGetPy fields "weight" with
    | none => []
    | some v =>
      if pyIsNum v ∧ 0 < pyNumVal v then []
      else ["Card " ++ quoted cid ++ " has invalid " ++ quoted "weight" ++
        " value " ++ quoted (pyStr (some v)) ++ "."]
  let rewardImageErrs :=
    match jGetPy fields "reward" with
    | some (.obj rfields) => rewardErrors currency_codes cid rfields ++ imageErrors cid fields
    | _ => ["Card " ++ quoted cid ++ " must define " ++ quoted "reward" ++ " object."]
  fieldErrs ++ rarityErrs ++ mcErrs ++ wErrs ++ rewardImageErrs

/-- The cards loop of `validate_catalog_dict`: accumulate errors and the
set of declared card ids. -/
def cardsFold (currency_codes : List String) (ids : List String)
    (errs : List String) (idx : Nat) : List JVal → List String × List String
  | [] => (errs, ids)
  | e :: rest =>
    match e with
    | .obj fields =>
      match jGetPy fields "id" with
      | some (.str cid) =>
        if pyStrip cid = "" then
          cardsFold currency_codes ids
            (errs ++ ["Card #" ++ toString idx ++ " must define non-empty " ++
              quoted "id" ++ "."]) (idx + 1) rest
        else
          cardsFold currency_codes (ids ++ [cid])
            (errs ++
              (if ids.contains cid then
                ["Card id " ++ quoted cid ++ " defined multiple times."] else []) ++
              cardEntryErrors currency_codes cid fields)
            (idx + 1) rest
      | _ =>
        cardsFold currency_codes ids
          (errs ++ ["Card #" ++ toString idx ++ " must define non-empty " ++
            quoted "id" ++ "."]) (idx + 1) rest
    | _ =>
      cardsFold currency_codes ids
        (errs ++ ["Card #" ++ toString idx ++ " must be an object."]) (idx + 1) rest

/-- The cards section of `validate_catalog_dict`. -/
def validateCards (currency_codes : List String) (data : List (String × JVal)) :
    List String × List String :=
  match jGetPy data "cards" with
  | some (.arr entries) =>
    if entries.isEmpty then
      (["Catalog must contain non-empty " ++ quoted "cards" ++ " array."], [])
    else cardsFold currency_codes [] [] 1 entries
  | _ => (["Catalog must contain non-empty " ++ quoted "cards" ++ " array."], [])

/-- The checks run for one pack entry after its id has been accepted. -/
def packEntryErrors (card_ids : List String) (pid : String)
    (fields : List (String × JVal)) : List String :=
  let cardsErrs :=
    match jGetPy fields "cards" with
    | some (.arr cs) =>
      if cs.isEmpty then
        ["Pack " ++ quoted pid ++ " must define non-empty " ++ quoted "cards" ++ " array."]
      else
        cs.foldl
          (fun acc v =>
            acc ++
              (if card_ids.isEmpty ∨ jvalStrMem v card_ids then []
               else ["Pack " ++ quoted pid ++ " references unknown card " ++
                 quoted (pyStr (some v)) ++ "."]))
          []
    | _ =>
      ["Pack " ++ quoted pid ++ " must define non-empty " ++ quoted "cards" ++ " array."]
  let mprErrs :=
    let v := jGetD fields "maxPerRoll" (.int 1)
    if pyIsInt v ∧ 0 < pyIntVal v then []
    else ["Pack " ++ quoted pid ++ " has invalid " ++ quoted "maxPerRoll" ++
      " value " ++ quoted (pyStr (some v)) ++ "."]
  let cwErrs :=
    match jGetPy fields "cardWeights" with
    | none => []
    | some (.obj cw) =>
      if cw.isEmpty then
        ["Pack " ++ quoted pid ++ " has invalid " ++ quoted "cardWeights" ++ " definition."]
      else
        cw.foldl
          (fun acc p =>
            acc ++
              (if card_ids.isEmpty ∨ card_ids.contains p.1 then []
               else ["Pack " ++ quoted pid ++ " cardWeights reference unknown card " ++
                 quoted p.1 ++ "."]) ++
              (if pyIsNum p.2 ∧ 0 < pyNumVal p.2 then []
               else ["Pack " ++ quoted pid ++ " cardWeights for " ++ quoted p.1 ++
                 " must be positive number."]))
          []
    | some _ =>
      ["Pack " ++ quoted pid ++ " has invalid " ++ quoted "cardWeights" ++ " definition."]
  let rwErrs :=
    match jGetPy fields "rarityWeights" with
    | none => []
    | some (.obj rw) =>
      if rw.isEmpty then
        ["Pack " ++ quoted pid ++ " has invalid " ++ quoted "rarityWeights" ++ " definition."]
      else
        rw.foldl
          (fun acc p =>
            acc ++
              (if rarityStrings.contains p.1 then []
               else ["Pack " ++ quoted pid ++ " rarityWeights contains invalid rarity " ++
                 quoted p.1 ++ "."]) ++
              (if pyIsNum p.2 ∧ 0 < pyNumVal p.2 then []
               else ["Pack " ++ quoted pid ++ " rarityWeights for " ++ quoted p.1 ++
                 " must be positive number."]))
          []
    | some _ =>
      ["Pack " ++ quoted pid ++ " has invalid " ++ quoted "rarityWeights" ++ " definition."]
  cardsErrs ++ mprErrs ++ cwErrs ++ rwErrs

/-- The packs loop of `validate_catalog_dict`. -/
def packsFold (card_ids : List String) (errs : List String) (idx : Nat) :
    List JVal → List String
  | [] => errs
  | e :: rest =>
    match e with
    | .obj fields =>
      match jGetPy fields "id" with
      | some (.str pid) =>
        if pyStrip pid = "" then
          packsFold card_ids
            (errs ++ ["Pack #" ++ toString idx ++ " must define non-empty " ++
              quoted "id" ++ "."]) (idx + 1) rest
        else
          packsFold card_ids (errs ++ packEntryErrors card_ids pid fields) (idx + 1) rest
      | _ =>
        packsFold card_ids
          (errs ++ ["Pack #" ++ toString idx ++ " must define non-empty " ++
            quoted "id" ++ "."]) (idx + 1) rest
    | _ =>
      packsFold card_ids
        (errs ++ ["Pack #" ++ toString idx ++ " must be an object."]) (idx + 1) rest

/-- The packs section of `validate_catalog_dict`. -/
def validatePacks (card_ids : List String) (data : List (String × JVal)) : List String :=
  match jGetPy data "packs" with
  | some (.arr entries) =>
    if entries.isEmpty then
      ["Catalog must contain non-empty " ++ quoted "packs" ++ " array."]
    else packsFold card_ids [] 1 entries
  | _ => ["Catalog must contain non-empty " ++ quoted "packs" ++ " array."]

/-- `cardforge.loaders.json_loader.validate_catalog_dict`: the three
sections in order, each appending its errors. -/
def validateCatalogDict (data : List (String × JVal)) : List String :=
  let cur := validateCurrencies data
  let cards := validateCards cur.2 data
  cur.1 ++ cards.1 ++ validatePacks cards.2 data

/-- Modelled from the spec wording of the weight-resolution rule: walk the
candidate weights in order, the first positive one wins, else `1.0`. Used
only to compare against `cardWeight`, which is translated from the source. -/
def firstPositive : List (Option ℚ) → ℚ
  | [] => 1
  | none :: rest => firstPositive rest
  | some w :: rest => if 0 < w then w else firstPositive rest

/-- The four weight candidates of the spec's resolution order: (a) pack
per-card override, (b) intrinsic drop weight, (c) pack per-rarity weight,
(d) global per-rarity weight. -/
def weightCandidates (cfg : DropConfig) (pack : CardPack) (card : Card) :
    List (Option ℚ) :=
  [pack.card_weights.bind (fun cw => cw.lookup card.card_id),
   card.drop_weight,
   pack.rarity_weights.bind (fun rw => rw.lookup card.rarity.val),
   cfg.rarity_weights.lookup card.rarity.val]

/-- All the `rng.random()` draws lie in `[0, 1)`. -/
def RandsOK (rands : List ℚ) : Prop := ∀ r ∈ rands, 0 ≤ r ∧ r < 1

/-- All wallet balances are non-negative and so is the experience. -/
def RecordNonneg (r : PlayerRecord) : Prop :=
  (∀ p ∈ r.wallet, 0 ≤ p.2) ∧ 0 ≤ r.experience

/-- A card reward is non-negative in every currency and in experience. -/
def RewardNonneg (r : CardReward) : Prop :=
  (∀ p ∈ r.currencies, 0 ≤ p.2) ∧ 0 ≤ r.experience

/-- The invariant `CardCatalog.register_card` maintains: every entry is
keyed by its card's id, and keys are unique. -/
def CatalogWF (cat : CardCatalog) : Prop :=
  (∀ p ∈ cat.cards, p.2.card_id = p.1) ∧ (cat.cards.map Prod.fst).Nodup

/-- The `alpha` card of the repository's inventory test fixture. -/
def alphaCard : Card :=
  { card_id := "alpha", name := "Alpha", description := "Alpha card",
    reward := { currencies := [("coins", 5)], experience := 2 } }

/-- The catalog of the repository's inventory test fixture. -/
def testCat : CardCatalog :=
  { cards := [("alpha", alphaCard)],
    packs := [("starters",
      { pack_id := "starters", name := "Starter Pack", cards := ["alpha"] })] }

/-- Zero-cooldown drop configuration with duplicates disallowed. -/
def cfgND : DropConfig := { base_cooldown_seconds := 0, allow_duplicates := false }

/-- Zero-cooldown drop configuration with duplicates allowed. -/
def cfgDup : DropConfig := { base_cooldown_seconds := 0, allow_duplicates := true }

/-- The unique (`max_copies = 1`) card of the duplicate-strategy test. -/
def uniqueCard : Card :=
  { card_id := "unique", name := "Unique", rarity := .legendary,
    reward := { currencies := [("coins", 10)] }, max_copies := some 1 }

/-- Catalog holding the unique card in a pack that allows duplicates. -/
def uniqCat : CardCatalog :=
  { cards := [("unique", uniqueCard)],
    packs := [("uniques",
      { pack_id := "uniques", name := "Uniques", cards := ["unique"] })] }

/-- Catalog holding the unique card in a pack with duplicates disallowed. -/
def uniqCatND : CardCatalog :=
  { cards := [("unique", uniqueCard)],
    packs := [("uniques",
      { pack_id := "uniques", name := "Uniques", cards := ["unique"],
        allow_duplicates := false })] }

theorem lookup_cons_self {α : Type} (k : String) (b : α) (rest : List (String × α)) :
    ((k, b) :: rest).lookup k = some b := by
  simp [List.lookup]

theorem lookup_cons_ne {α : Type} (a k : String) (b : α) (rest : List (String × α))
    (h : k ≠ a) : ((a, b) :: rest).lookup k = rest.lookup k := by
  simp [List.lookup, beq_false_of_ne h]

theorem lookup_mem {α : Type} {l : List (String × α)} {k : String} {v : α}
    (h : l.lookup k = some v) : (k, v) ∈ l := by
  induction l with
  | nil => simp [List.lookup] at h
  | cons p rest ih =>
    obtain ⟨a, b⟩ := p
    by_cases hk : k = a
    · subst hk
      simp [List.lookup] at h
      subst h
      exact List.mem_cons_self _ _
    · simp [List.lookup, beq_false_of_ne hk] at h
      exact List.mem_cons_of_mem _ (ih h)

theorem dictGet_nonneg {d : List (String × Int)} {k : String}
    (h : ∀ p ∈ d, 0 ≤ p.2) : 0 ≤ dictGet d k := by
  unfold dictGet
  cases hl : d.lookup k with
  | none => simp
  | some v => simpa using h _ (lookup_mem hl)

theorem lookup_map_update_self (k : String) (v : Int) :
    ∀ d : List (String × Int), (d.lookup k).isSome →
      (d.map (fun p => if p.1 = k then (k, v) else p)).lookup k = some v := by
  intro d
  induction d with
  | nil => intro hs; simp [List.lookup] at hs
  | cons p rest ih =>
    obtain ⟨a, b⟩ := p
    intro hs
    by_cases hk : a = k
    · subst hk
      simp only [List.map_cons, if_pos rfl]
      simp [List.lookup]
    · have hk2 : k ≠ a := fun hh => hk hh.symm
      simp only [List.map_cons, if_neg hk]
      rw [lookup_cons_ne a k b rest hk2] at hs
      rw [lookup_cons_ne a k b _ hk2]
      exact ih hs

theorem lookup_append_single_self (k : String) (v : Int) :
    ∀ d : List (String × Int), d.lookup k = none →
      (d ++ [(k, v)]).lookup k = some v := by
  intro d
  induction d with
  | nil => intro _; simp [List.lookup]
  | cons p rest ih =>
    obtain ⟨a, b⟩ := p
    intro hn
    by_cases hk : k = a
    · subst hk
      rw [lookup_cons_self] at hn
      exact absurd hn (by simp)
    · rw [lookup_cons_ne a k b rest hk] at hn
      rw [List.cons_append, lookup_cons_ne a k b _ hk]
      exact ih hn

theorem lookup_map_update_ne (k k2 : String) (v : Int) (h : k2 ≠ k) :
    ∀ d : List (String × Int),
      (d.map (fun p => if p.1 = k then (k, v) else p)).lookup k2 = d.lookup k2 := by
  intro d
  induction d with
  | nil => simp
  | cons p rest ih =>
    obtain ⟨a, b⟩ := p
    by_cases hk : a = k
    · subst hk
      simp only [List.map_cons, if_true, eq_self_iff_true]
      rw [lookup_cons_ne a k2 v _ h, lookup_cons_ne a k2 b rest h]
      exact ih
    · simp only [List.map_cons, if_neg hk]
      by_cases hk2 : k2 = a
      · subst hk2
        rw [lookup_cons_self, lookup_cons_self]
      · rw [lookup_cons_ne a k2 b _ hk2, lookup_cons_ne a k2 b rest hk2]
        exact ih

theorem lookup_append_single_ne (k k2 : String) (v : Int) (h : k2 ≠ k) :
    ∀ d : List (String × Int),
      (d ++ [(k, v)]).lookup k2 = d.lookup k2 := by
  intro d
  induction d with
  | nil =>
    rw [List.nil_append, lookup_cons_ne k k2 v [] h]
  | cons p rest ih =>
    obtain ⟨a, b⟩ := p
    by_cases hk2 : k2 = a
    · subst hk2
      rw [List.cons_append, lookup_cons_self, lookup_cons_self]
    · rw [List.cons_append, lookup_cons_ne a k2 b _ hk2, lookup_cons_ne a k2 b rest hk2]
      exact ih

theorem lookup_dictSet_self (d : List (String × Int)) (k : String) (v : Int) :
    (dictSet d k v).lookup k = some v := by
  unfold dictSet
  split
  next hs => exact lookup_map_update_self k v d hs
  next hs =>
    have hn : d.lookup k = none := by
      cases hl : d.lookup k with
      | none => rfl
      | some w => rw [hl] at hs; simp at hs
    exact lookup_append_single_self k v d hn

theorem lookup_dictSet_ne (d : List (String × Int)) (k k2 : String) (v : Int)
    (h : k2 ≠ k) : (dictSet d k v).lookup k2 = d.lookup k2 := by
  unfold dictSet
  split
  · exact lookup_map_update_ne k k2 v h d
  · exact lookup_append_single_ne k k2 v h d

theorem dictGet_dictSet_self (d : List (String × Int)) (k : String) (v : Int) :
    dictGet (dictSet d k v) k = v := by
  unfold dictGet
  rw [lookup_dictSet_self]
  rfl

theorem dictGet_dictSet_ne (d : List (String × Int)) (k k2 : String) (v : Int)
    (h : k2 ≠ k) : dictGet (dictSet d k v) k2 = dictGet d k2 := by
  unfold dictGet
  rw [lookup_dictSet_ne _ _ _ _ h]

theorem mem_dictSet {d : List (String × Int)} {k : String} {v : Int}
    {p : String × Int} (h : p ∈ dictSet d k v) : p = (k, v) ∨ p ∈ d := by
  unfold dictSet at h
  split at h
  · obtain ⟨q, hq, hfq⟩ := List.mem_map.mp h
    by_cases hk : q.1 = k
    · simp [hk] at hfq
      exact Or.inl hfq.symm
    · simp [hk] at hfq
      exact Or.inr (hfq ▸ hq)
  · rcases List.mem_append.mp h with h2 | h2
    · exact Or.inr h2
    · simp at h2
      exact Or.inl h2

theorem pyInt_nonneg {q : ℚ} (h : 0 ≤ q) : 0 ≤ pyInt q := by
  unfold pyInt
  rw [if_pos h]
  exact Int.floor_nonneg.mpr h

theorem pyInt_lt {q : ℚ} {n : Nat} (h0 : 0 ≤ q) (h : q < n) : pyInt q < (n : Int) := by
  unfold pyInt
  rw [if_pos h0]
  exact Int.floor_lt.mpr (by exact_mod_cast h)

theorem uniformIndex_lt {r : ℚ} {n : Nat} (h0 : 0 ≤ r) (h1 : r < 1) (hn : 0 < n) :
    uniformIndex r n < n := by
  unfold uniformIndex
  have hrn : r * n < n := by
    have : (0 : ℚ) < n := by exact_mod_cast hn
    calc r * n < 1 * n := by exact mul_lt_mul_of_pos_right h1 this
    _ = n := one_mul _
  have h2 : pyInt (r * n) < (n : Int) := pyInt_lt (mul_nonneg h0 (by positivity)) hrn
  omega

theorem cumulFind_lt {threshold : ℚ} :
    ∀ (ws : List ℚ) (c : ℚ) (i k : Nat),
      cumulFind threshold c i ws = some k → k < i + ws.length := by
  intro ws
  induction ws with
  | nil => intro c i k h; simp [cumulFind] at h
  | cons w rest ih =>
    intro c i k h
    rw [cumulFind] at h
    split at h
    · simp at h
      subst h
      simp
    · have := ih (c + w) (i + 1) k h
      simp only [List.length_cons]
      omega

theorem weightedIndex_bound {weights : List ℚ} {r : ℚ}
    (h0 : 0 ≤ r) (h1 : r < 1) (hne : weights ≠ []) :
    weightedIndex weights r < weights.length := by
  have hlen : 0 < weights.length := List.length_pos.mpr hne
  simp only [weightedIndex]
  split
  · exact uniformIndex_lt h0 h1 hlen
  · cases hc : cumulFind (r * weights.sum) 0 0 weights with
    | none => simp only [hc, Option.getD_none]; omega
    | some k =>
      have := cumulFind_lt weights 0 0 k hc
      simp only [hc, Option.getD_some]
      omega

theorem getD_mem_or_default (l : List Card) (i : Nat) :
    l.getD i default ∈ l ∨ l.getD i default = default := by
  by_cases h : i < l.length
  · left
    rw [List.getD_eq_getElem?_getD, List.getElem?_eq_getElem h]
    exact List.getElem_mem h
  · right
    rw [List.getD_eq_getElem?_getD, List.getElem?_eq_none (by omega)]
    rfl

theorem getD_mem {l : List Card} {i : Nat} (h : i < l.length) :
    l.getD i default ∈ l := by
  rw [List.getD_eq_getElem?_getD, List.getElem?_eq_getElem h]
  exact List.getElem_mem h

theorem randsOK_headD {rands : List ℚ} (h : RandsOK rands) :
    0 ≤ rands.headD 0 ∧ rands.headD 0 < 1 := by
  cases rands with
  | nil => simp
  | cons r rest => exact h r (List.mem_cons_self _ _)

theorem randsOK_tail {rands : List ℚ} (h : RandsOK rands) : RandsOK rands.tail := by
  cases rands with
  | nil => exact h
  | cons r rest => exact fun x hx => h x (List.mem_cons_of_mem _ hx)

theorem length_drawWith (cards : List Card) (weights : List ℚ) :
    ∀ (n : Nat) (rands : List ℚ), (drawWith cards weights n rands).length = n := by
  intro n
  induction n with
  | zero => intro rands; rfl
  | succ m ih => intro rands; simp [drawWith, ih]

theorem length_drawWithout :
    ∀ (n : Nat) (pool : List Card) (wpool : List ℚ) (rands : List ℚ),
      (drawWithout pool wpool n rands).length = n := by
  intro n
  induction n with
  | zero => intro pool wpool rands; rfl
  | succ m ih => intro pool wpool rands; simp [drawWithout, ih]

theorem mem_drawWith {cards : List Card} {weights : List ℚ}
    (hlen : weights.length = cards.length) (hne : cards ≠ []) :
    ∀ {n : Nat} {rands : List ℚ}, RandsOK rands →
      ∀ x ∈ drawWith cards weights n rands, x ∈ cards := by
  intro n
  induction n with
  | zero => intro rands _ x hx; simp [drawWith] at hx
  | succ m ih =>
    intro rands hr x hx
    rw [drawWith] at hx
    rcases List.mem_cons.mp hx with hx | hx
    · subst hx
      unfold weightedChoice
      have hwne : weights ≠ [] := by
        intro hw
        rw [hw] at hlen
        exact hne (List.length_eq_zero.mp hlen.symm)
      have hb := weightedIndex_bound (randsOK_headD hr).1 (randsOK_headD hr).2 hwne
      exact getD_mem (by omega)
    · exact ih (randsOK_tail hr) x hx

theorem mem_drawWithout :
    ∀ {n : Nat} {pool : List Card} {wpool : List ℚ} {rands : List ℚ},
      RandsOK rands → wpool.length = pool.length → n ≤ pool.length →
      ∀ x ∈ drawWithout pool wpool n rands, x ∈ pool := by
  intro n
  induction n with
  | zero => intro pool wpool rands _ _ _ x hx; simp [drawWithout] at hx
  | succ m ih =>
    intro pool wpool rands hr hlen hn x hx
    rw [drawWithout] at hx
    have hpne : pool ≠ [] := by
      intro hp
      rw [hp] at hn
      simp at hn
    have hwne : wpool ≠ [] := by
      intro hw
      rw [hw] at hlen
      exact hpne (List.length_eq_zero.mp hlen.symm)
    have hb := weightedIndex_bound (randsOK_headD hr).1 (randsOK_headD hr).2 hwne
    rcases List.mem_cons.mp hx with hx | hx
    · subst hx
      exact getD_mem (by omega)
    · have hidx : weightedIndex wpool (rands.headD 0) < pool.length := by omega
      have hmem := ih (randsOK_tail hr)
        (by rw [List.length_eraseIdx, List.length_eraseIdx, hlen])
        (by
          rw [List.length_eraseIdx]
          split <;> omega)
        x hx
      exact (List.eraseIdx_sublist pool _).mem hmem

theorem mem_drawCards {cfg : DropConfig} {pack : CardPack} {cards : List Card}
    {amount : Nat} {allow_duplicates : Bool} {rands : List ℚ}
    (hr : RandsOK rands) (hne : cards ≠ []) :
    ∀ x ∈ drawCards cfg pack cards amount allow_duplicates rands, x ∈ cards := by
  intro x hx
  unfold drawCards at hx
  split at hx
  · exact mem_drawWith (by simp) hne hr x hx
  · exact mem_drawWithout hr (by simp) (Nat.min_le_right _ _) x hx

theorem mem_drawWith_weak {cards : List Card} {weights : List ℚ} :
    ∀ {n : Nat} {rands : List ℚ},
      ∀ x ∈ drawWith cards weights n rands, x ∈ cards ∨ x = default := by
  intro n
  induction n with
  | zero => intro rands x hx; simp [drawWith] at hx
  | succ m ih =>
    intro rands x hx
    rw [drawWith] at hx
    rcases List.mem_cons.mp hx with hx | hx
    · subst hx
      exact getD_mem_or_default cards _
    · exact ih x hx

theorem mem_drawWithout_weak :
    ∀ {n : Nat} {pool : List Card} {wpool : List ℚ} {rands : List ℚ},
      ∀ x ∈ drawWithout pool wpool n rands, x ∈ pool ∨ x = default := by
  intro n
  induction n with
  | zero => intro pool wpool rands x hx; simp [drawWithout] at hx
  | succ m ih =>
    intro pool wpool rands x hx
    rw [drawWithout] at hx
    rcases List.mem_cons.mp hx with hx | hx
    · subst hx
      exact getD_mem_or_default pool _
    · rcases ih x hx with h | h
      · exact Or.inl ((List.eraseIdx_sublist pool _).mem h)
      · exact Or.inr h

theorem mem_drawCards_weak {cfg : DropConfig} {pack : CardPack} {cards : List Card}
    {amount : Nat} {allow_duplicates : Bool} {rands : List ℚ} :
    ∀ x ∈ drawCards cfg pack cards amount allow_duplicates rands,
      x ∈ cards ∨ x = default := by
  intro x hx
  unfold drawCards at hx
  split at hx
  · exact mem_drawWith_weak x hx
  · exact mem_drawWithout_weak x hx

theorem getCard_error_shape {cat : CardCatalog} {cid : String} {e : Err}
    (h : getCard cat cid = .error e) : ∃ m, e = .keyError m := by
  unfold getCard at h
  split at h
  · exact absurd h (by simp)
  · simp at h
    exact ⟨_, h.symm⟩

theorem getPack_error_shape {cat : CardCatalog} {pid : String} {e : Err}
    (h : getPack cat pid = .error e) : ∃ m, e = .keyError m := by
  unfold getPack at h
  split at h
  · exact absurd h (by simp)
  · simp at h
    exact ⟨_, h.symm⟩

theorem getCard_ok_mem {cat : CardCatalog} {cid : String} {c : Card}
    (h : getCard cat cid = .ok c) : (cid, c) ∈ cat.cards := by
  unfold getCard at h
  split at h
  next hl =>
    simp at h
    exact h ▸ lookup_mem hl
  next => exact absurd h (by simp)

theorem getCards_error_shape {cat : CardCatalog} :
    ∀ {cids : List String} {e : Err},
      getCards cat cids = .error e → ∃ m, e = .keyError m := by
  intro cids
  induction cids with
  | nil => intro e h; simp [getCards] at h
  | cons cid rest ih =>
    intro e h
    rw [getCards] at h
    split at h
    next he =>
      simp at h
      exact h ▸ getCard_error_shape he
    next =>
      split at h
      next he =>
        simp at h
        exact h ▸ ih he
      next => exact absurd h (by simp)

theorem getCards_ok_mem {cat : CardCatalog} :
    ∀ {cids : List String} {cards : List Card},
      getCards cat cids = .ok cards →
      ∀ c ∈ cards, ∃ cid, cid ∈ cids ∧ getCard cat cid = .ok c := by
  intro cids
  induction cids with
  | nil =>
    intro cards h c hc
    simp [getCards] at h
    subst h
    simp at hc
  | cons cid rest ih =>
    intro cards h c hc
    rw [getCards] at h
    split at h
    next => exact absurd h (by simp)
    next c0 hc0 =>
      split at h
      next => exact absurd h (by simp)
      next cs hcs =>
        simp at h
        subst h
        rcases List.mem_cons.mp hc with hc | hc
        · exact ⟨cid, List.mem_cons_self _ _, hc ▸ hc0⟩
        · obtain ⟨cid2, hm, hg⟩ := ih hcs c hc
          exact ⟨cid2, List.mem_cons_of_mem _ hm, hg⟩

theorem ensureCodes_error_shape {registered : List String} :
    ∀ {codes : List String} {e : Err},
      ensureCodes registered codes = .error e → ∃ m, e = .keyError m := by
  intro codes
  induction codes with
  | nil => intro e h; simp [ensureCodes] at h
  | cons c rest ih =>
    intro e h
    rw [ensureCodes] at h
    split at h
    · exact ih h
    · simp at h
      exact ⟨_, h.symm⟩

theorem credit_error_shape {w : Wallet} {c : String} {a : Int} {e : Err}
    (h : w.credit c a = .error e) : ∃ m, e = .valueError m := by
  unfold Wallet.credit at h
  split at h
  · simp at h
    exact ⟨_, h.symm⟩
  · exact absurd h (by simp)

theorem debit_error_shape {w : Wallet} {c : String} {a : Int} {e : Err}
    (h : w.debit c a = .error e) : ∃ m, e = .valueError m := by
  unfold Wallet.debit at h
  split at h
  · simp at h
    exact ⟨_, h.symm⟩
  · dsimp only at h
    split at h
    · simp at h
      exact ⟨_, h.symm⟩
    · exact absurd h (by simp)

theorem mergeRewards_error_shape {e : Err} :
    ∀ {rewards : List (String × Int)} {w : Wallet},
      w.mergeRewards rewards = .error e → ∃ m, e = .valueError m := by
  intro rewards
  induction rewards with
  | nil => intro w h; simp [Wallet.mergeRewards] at h
  | cons p rest ih =>
    intro w h
    rw [Wallet.mergeRewards] at h
    split at h
    next he =>
      simp at h
      subst h
      split at he
      · exact credit_error_shape he
      · exact debit_error_shape he
    next => exact ih h

theorem mergeRewards_nonneg :
    ∀ {rewards : List (String × Int)} {w w2 : Wallet},
      (∀ p ∈ w.balances, 0 ≤ p.2) → (∀ p ∈ rewards, 0 ≤ p.2) →
      w.mergeRewards rewards = .ok w2 → ∀ p ∈ w2.balances, 0 ≤ p.2 := by
  intro rewards
  induction rewards with
  | nil =>
    intro w w2 hw _ h
    simp [Wallet.mergeRewards] at h
    subst h
    exact hw
  | cons q rest ih =>
    intro w w2 hw hr h
    rw [Wallet.mergeRewards] at h
    split at h
    next => exact absurd h (by simp)
    next w1 hw1 =>
      have hq : 0 ≤ q.2 := hr q (List.mem_cons_self _ _)
      rw [if_pos hq] at hw1
      unfold Wallet.credit at hw1
      rw [if_neg (by omega)] at hw1
      simp at hw1
      have hw1b : ∀ p ∈ w1.balances, 0 ≤ p.2 := by
        intro p hp
        rw [← hw1] at hp
        simp at hp
        rcases mem_dictSet hp with hp | hp
        · subst hp
          have := dictGet_nonneg (k := q.1) hw
          omega
        · exact hw p hp
      exact ih hw1b (fun p hp => hr p (List.mem_cons_of_mem _ hp)) h

theorem merge_currencies_nonneg :
    ∀ {l acc : List (String × Int)},
      (∀ p ∈ acc, 0 ≤ p.2) → (∀ p ∈ l, 0 ≤ p.2) →
      ∀ p ∈ List.foldl (fun merged p => dictSet merged p.1 (dictGet merged p.1 + p.2)) acc l,
        0 ≤ p.2 := by
  intro l
  induction l with
  | nil => intro acc ha _ p hp; exact ha p hp
  | cons q rest ih =>
    intro acc ha hl p hp
    rw [List.foldl_cons] at hp
    refine ih ?_ (fun p hp => hl p (List.mem_cons_of_mem _ hp)) p hp
    intro p2 hp2
    rcases mem_dictSet hp2 with hp2 | hp2
    · subst hp2
      have h1 := dictGet_nonneg (k := q.1) ha
      have h2 := hl q (List.mem_cons_self _ _)
      simp only
      omega
    · exact ha p2 hp2

theorem merge_nonneg {a b : CardReward} (ha : RewardNonneg a) (hb : RewardNonneg b) :
    RewardNonneg (a.merge b) := by
  unfold CardReward.merge
  exact ⟨merge_currencies_nonneg ha.1 hb.1, by
    have := ha.2
    have := hb.2
    simp only
    omega⟩

theorem handle_nonneg {s : DuplicateStrategy} {card : Card} {player : PlayerRecord}
    {cfg : DropConfig} (h : RewardNonneg card.reward) :
    RewardNonneg (s.handle card player cfg) := by
  cases s with
  | penalty =>
    simp only [DuplicateStrategy.handle]
    split
    next => exact ⟨fun p hp => by simp at hp, by norm_num⟩
    next hpen =>
      have hpos : 0 < cfg.duplicate_penalty := lt_of_not_le hpen
      constructor
      · intro p hp
        obtain ⟨q, hq, hfq⟩ := List.mem_map.mp hp
        have hv : (0 : ℚ) ≤ (q.2 : ℚ) := by exact_mod_cast h.1 q hq
        rw [← hfq]
        exact pyInt_nonneg (mul_nonneg hv hpos.le)
      · have hv : (0 : ℚ) ≤ (card.reward.experience : ℚ) := by exact_mod_cast h.2
        exact pyInt_nonneg (mul_nonneg hv hpos.le)
  | dust currency amount =>
    simp only [DuplicateStrategy.handle]
    split
    next => exact ⟨fun p hp => by simp at hp, by norm_num⟩
    next hamt =>
      refine ⟨?_, by norm_num⟩
      intro p hp
      simp at hp
      subst hp
      show 0 ≤ amount
      omega

theorem dropStep_record_fields (s : DuplicateStrategy) (cfg : DropConfig) (a : Bool)
    (st : PlayerRecord × List Card × CardReward) (card : Card) :
    (dropStep s cfg a st card).1.wallet = st.1.wallet ∧
    (dropStep s cfg a st card).1.experience = st.1.experience ∧
    (dropStep s cfg a st card).1.last_drop_at = st.1.last_drop_at := by
  simp only [dropStep]
  split
  · exact ⟨rfl, rfl, rfl⟩
  · split
    · split
      · exact ⟨rfl, rfl, rfl⟩
      · exact ⟨rfl, rfl, rfl⟩
    · exact ⟨rfl, rfl, rfl⟩

theorem dropStep_dups_shape (s : DuplicateStrategy) (cfg : DropConfig) (a : Bool)
    (st : PlayerRecord × List Card × CardReward) (card : Card) :
    (dropStep s cfg a st card).2.1 = st.2.1 ∨
    (dropStep s cfg a st card).2.1 = st.2.1 ++ [card] := by
  simp only [dropStep]
  split
  · exact Or.inr rfl
  · split
    · split
      · exact Or.inr rfl
      · exact Or.inl rfl
    · exact Or.inl rfl

theorem dropStep_reward_shape (s : DuplicateStrategy) (cfg : DropConfig) (a : Bool)
    (st : PlayerRecord × List Card × CardReward) (card : Card) :
    ∃ x, (dropStep s cfg a st card).2.2 = st.2.2.merge x ∧
      (x = s.handle card st.1 cfg ∨ x = card.reward) := by
  simp only [dropStep]
  split
  · exact ⟨_, rfl, Or.inl rfl⟩
  · split
    · split
      · exact ⟨_, rfl, Or.inl rfl⟩
      · exact ⟨_, rfl, Or.inr rfl⟩
    · exact ⟨_, rfl, Or.inr rfl⟩

theorem dropStep_cap {s : DuplicateStrategy} {cfg : DropConfig} {a : Bool}
    {st : PlayerRecord × List Card × CardReward} {card : Card} {cid : String} {m : Int}
    (hcard : card.card_id = cid → card.max_copies = some m)
    (hpre : dictGet st.1.inventory cid ≤ m) :
    dictGet (dropStep s cfg a st card).1.inventory cid ≤ m := by
  simp only [dropStep]
  split
  · exact hpre
  · split
    next m2 heq =>
      split
      · exact hpre
      next hlt =>
        by_cases hc : card.card_id = cid
        · have hm : m2 = m := by
            have h2 := hcard hc
            rw [heq] at h2
            exact Option.some_injective _ h2
          rw [hc, dictGet_dictSet_self]
          rw [hc] at hlt
          omega
        · rw [dictGet_dictSet_ne _ _ _ _ (fun hh => hc hh.symm)]
          exact hpre
    next heq =>
      by_cases hc : card.card_id = cid
      · have h2 := hcard hc
        rw [heq] at h2
        exact absurd h2 (by simp)
      · rw [dictGet_dictSet_ne _ _ _ _ (fun hh => hc hh.symm)]
        exact hpre

theorem foldl_dropStep_record_fields (s : DuplicateStrategy) (cfg : DropConfig) (a : Bool) :
    ∀ (drawn : List Card) (st : PlayerRecord × List Card × CardReward),
      (List.foldl (dropStep s cfg a) st drawn).1.wallet = st.1.wallet ∧
      (List.foldl (dropStep s cfg a) st drawn).1.experience = st.1.experience := by
  intro drawn
  induction drawn with
  | nil => intro st; exact ⟨rfl, rfl⟩
  | cons c rest ih =>
    intro st
    rw [List.foldl_cons]
    have h1 := dropStep_record_fields s cfg a st c
    have h2 := ih (dropStep s cfg a st c)
    exact ⟨h2.1.trans h1.1, h2.2.trans h1.2.1⟩

theorem foldl_dropStep_dups (s : DuplicateStrategy) (cfg : DropConfig) (a : Bool) :
    ∀ (drawn : List Card) (st : PlayerRecord × List Card × CardReward) (x : Card),
      x ∈ (List.foldl (dropStep s cfg a) st drawn).2.1 →
      x ∈ st.2.1 ∨ x ∈ drawn := by
  intro drawn
  induction drawn with
  | nil =>
    intro st x hx
    exact Or.inl hx
  | cons c rest ih =>
    intro st x hx
    rw [List.foldl_cons] at hx
    rcases ih (dropStep s cfg a st c) x hx with hx2 | hx2
    · rcases dropStep_dups_shape s cfg a st c with hs | hs
      · rw [hs] at hx2
        exact Or.inl hx2
      · rw [hs] at hx2
        rcases List.mem_append.mp hx2 with h | h
        · exact Or.inl h
        · simp at h
          exact Or.inr (h ▸ List.mem_cons_self _ _)
    · exact Or.inr (List.mem_cons_of_mem _ hx2)

theorem foldl_dropStep_reward_nonneg (s : DuplicateStrategy) (cfg : DropConfig) (a : Bool) :
    ∀ (drawn : List Card) (st : PlayerRecord × List Card × CardReward),
      (∀ d ∈ drawn, RewardNonneg d.reward) → RewardNonneg st.2.2 →
      RewardNonneg (List.foldl (dropStep s cfg a) st drawn).2.2 := by
  intro drawn
  induction drawn with
  | nil => intro st _ hst; exact hst
  | cons c rest ih =>
    intro st hd hst
    rw [List.foldl_cons]
    refine ih (dropStep s cfg a st c) (fun d hdm => hd d (List.mem_cons_of_mem _ hdm)) ?_
    obtain ⟨x, hx, hor⟩ := dropStep_reward_shape s cfg a st c
    rw [hx]
    have hc : RewardNonneg c.reward := hd c (List.mem_cons_self _ _)
    rcases hor with h | h
    · exact merge_nonneg hst (h ▸ handle_nonneg hc)
    · exact merge_nonneg hst (h ▸ hc)

theorem foldl_dropStep_cap (s : DuplicateStrategy) (cfg : DropConfig) (a : Bool)
    (cid : String) (m : Int) :
    ∀ (drawn : List Card) (st : PlayerRecord × List Card × CardReward),
      (∀ d ∈ drawn, d.card_id = cid → d.max_copies = some m) →
      dictGet st.1.inventory cid ≤ m →
      dictGet (List.foldl (dropStep s cfg a) st drawn).1.inventory cid ≤ m := by
  intro drawn
  induction drawn with
  | nil => intro st _ hpre; exact hpre
  | cons c rest ih =>
    intro st hd hpre
    rw [List.foldl_cons]
    exact ih (dropStep s cfg a st c)
      (fun d hdm => hd d (List.mem_cons_of_mem _ hdm))
      (dropStep_cap (hd c (List.mem_cons_self _ _)) hpre)

theorem dropCore_ne_cooldown (cat : CardCatalog) (registered : List String)
    (cfg : DropConfig) (strategy : DuplicateStrategy) (record : PlayerRecord)
    (now : PyDT) (pack_id : String) (rands : List ℚ) (k : Int) :
    dropCore cat registered cfg strategy record now pack_id rands ≠
      .error (.cooldownActive k) := by
  intro h
  unfold dropCore at h
  split at h
  next he =>
    simp at h
    obtain ⟨m, hm⟩ := getPack_error_shape (he.trans (congrArg Except.error h))
    simp at hm
  next pack hp =>
    split at h
    next he =>
      simp at h
      obtain ⟨m, hm⟩ := getCards_error_shape (he.trans (congrArg Except.error h))
      simp at hm
    next cards hc =>
      dsimp only at h
      split at h
      · simp at h
      · unfold dropFinish at h
        dsimp only at h
        split at h
        next he =>
          simp at h
          subst h
          split at he
          · simp at he
          · obtain ⟨m, hm⟩ := ensureCodes_error_shape he
            simp at hm
        next =>
          split at h
          next he =>
            simp at h
            subst h
            obtain ⟨m, hm⟩ := mergeRewards_error_shape he
            simp at hm
          next => simp at h

theorem dropCore_ok_shape {cat : CardCatalog} {registered : List String}
    {cfg : DropConfig} {strategy : DuplicateStrategy} {record : PlayerRecord}
    {now : PyDT} {pack_id : String} {rands : List ℚ} {outcome : DropOutcome}
    {record2 : PlayerRecord}
    (h : dropCore cat registered cfg strategy record now pack_id rands =
      .ok (outcome, record2)) :
    ∃ pack cards,
      getPack cat pack_id = .ok pack ∧
      getCards cat pack.cards = .ok cards ∧
      (filterCards cards record (cfg.allow_duplicates && pack.allow_duplicates)).isEmpty
        = false ∧
      outcome.cards =
        drawCards cfg pack
          (filterCards cards record (cfg.allow_duplicates && pack.allow_duplicates))
          (min pack.max_per_roll (min cfg.max_cards_per_drop
            (filterCards cards record (cfg.allow_duplicates && pack.allow_duplicates)).length))
          (cfg.allow_duplicates && pack.allow_duplicates) rands ∧
      outcome.duplicates =
        (processDrawn strategy cfg (cfg.allow_duplicates && pack.allow_duplicates) record
          outcome.cards).2.1 ∧
      outcome.reward =
        (processDrawn strategy cfg (cfg.allow_duplicates && pack.allow_duplicates) record
          outcome.cards).2.2 ∧
      outcome.next_drop_at = now.addSeconds cfg.base_cooldown_seconds ∧
      record2.inventory =
        (processDrawn strategy cfg (cfg.allow_duplicates && pack.allow_duplicates) record
          outcome.cards).1.inventory ∧
      record2.experience =
        (processDrawn strategy cfg (cfg.allow_duplicates && pack.allow_duplicates) record
          outcome.cards).1.experience + outcome.reward.experience ∧
      record2.last_drop_at = some now ∧
      ∃ wallet,
        Wallet.mergeRewards
          { balances := (processDrawn strategy cfg
              (cfg.allow_duplicates && pack.allow_duplicates) record outcome.cards).1.wallet }
          outcome.reward.currencies = .ok wallet ∧
        record2.wallet = wallet.balances := by
  unfold dropCore at h
  split at h
  next => exact absurd h (by simp)
  next pack hp =>
    split at h
    next => exact absurd h (by simp)
    next cards hc =>
      dsimp only at h
      split at h
      next hne => exact absurd h (by simp)
      next hne =>
        unfold dropFinish at h
        dsimp only at h
        split at h
        next => exact absurd h (by simp)
        next hok =>
          split at h
          next => exact absurd h (by simp)
          next wallet hw =>
            simp only [Except.ok.injEq, Prod.mk.injEq] at h
            obtain ⟨ho, hr⟩ := h
            subst ho
            subst hr
            refine ⟨pack, cards, hp, hc, by simpa using hne, rfl, rfl, rfl, rfl, rfl, rfl,
              rfl, wallet, hw, rfl⟩

theorem stageD_eq (cfg : DropConfig) (card : Card) :
    cardWeightGlobalRarity cfg card =
      firstPositive [cfg.rarity_weights.lookup card.rarity.val] := by
  unfold cardWeightGlobalRarity
  cases h : cfg.rarity_weights.lookup card.rarity.val with
  | none => simp [firstPositive]
  | some w =>
    simp only [firstPositive]
    by_cases hw : 0 < w
    · rw [if_pos ⟨ne_of_gt hw, hw⟩, if_pos hw]
    · rw [if_neg (fun hc => hw hc.2), if_neg hw]

theorem stageC_eq (cfg : DropConfig) (pack : CardPack) (card : Card) :
    cardWeightPackRarity cfg pack card =
      firstPositive [pack.rarity_weights.bind (fun rw => rw.lookup card.rarity.val),
        cfg.rarity_weights.lookup card.rarity.val] := by
  unfold cardWeightPackRarity
  cases hrw : pack.rarity_weights with
  | none =>
    simp only [Option.none_bind, firstPositive]
    exact stageD_eq cfg card
  | some rw =>
    simp only [Option.some_bind]
    by_cases he : rw.isEmpty
    · have hnil : rw = [] := List.isEmpty_iff.mp he
      rw [if_pos he, hnil]
      simp only [List.lookup, firstPositive]
      exact stageD_eq cfg card
    · rw [if_neg he]
      cases hl : rw.lookup card.rarity.val with
      | none =>
        simp only [firstPositive]
        exact stageD_eq cfg card
      | some w =>
        simp only [firstPositive]
        by_cases hw : 0 < w
        · rw [if_pos ⟨ne_of_gt hw, hw⟩, if_pos hw]
        · rw [if_neg (fun hc => hw hc.2), if_neg hw]
          exact stageD_eq cfg card

theorem stageB_eq (cfg : DropConfig) (pack : CardPack) (card : Card) :
    cardWeightIntrinsic cfg pack card =
      firstPositive [card.drop_weight,
        pack.rarity_weights.bind (fun rw => rw.lookup card.rarity.val),
        cfg.rarity_weights.lookup card.rarity.val] := by
  unfold cardWeightIntrinsic
  cases hd : card.drop_weight with
  | none =>
    simp only [firstPositive]
    exact stageC_eq cfg pack card
  | some w =>
    simp only [firstPositive]
    by_cases hw : 0 < w
    · rw [if_pos ⟨ne_of_gt hw, hw⟩, if_pos hw]
    · rw [if_neg (fun hc => hw hc.2), if_neg hw]
      exact stageC_eq cfg pack card

/-- C4: for every card drawn from a pack, the sampling weight is the first
positive match among (a) the pack's per-card override, (b) the card's
intrinsic drop weight, (c) the pack's per-rarity weight, (d) the global
per-rarity weight, defaulting to `1.0` — i.e. the source's `_card_weight`
coincides with the spec-worded first-positive-candidate resolution. -/
theorem cardWeight_eq_firstPositive (cfg : DropConfig) (pack : CardPack) (card : Card) :
    cardWeight cfg pack card = firstPositive (weightCandidates cfg pack card) := by
  unfold weightCandidates cardWeight
  cases hcw : pack.card_weights with
  | none =>
    simp only [Option.none_bind, firstPositive]
    exact stageB_eq cfg pack card
  | some cw =>
    simp only [Option.some_bind]
    by_cases he : cw.isEmpty
    · have hnil : cw = [] := List.isEmpty_iff.mp he
      rw [if_pos he, hnil]
      simp only [List.lookup, firstPositive]
      exact stageB_eq cfg pack card
    · rw [if_neg he]
      cases hl : cw.lookup card.card_id with
      | none =>
        simp only [firstPositive]
        exact stageB_eq cfg pack card
      | some w =>
        simp only [firstPositive]
        by_cases hw : 0 < w
        · rw [if_pos hw, if_pos hw]
        · rw [if_neg hw, if_neg hw]
          exact stageB_eq cfg pack card

/-- C10: for every non-empty weight list and a random draw `r ∈ [0, 1)`,
`_weighted_index` returns an index inside `[0, length - 1]` — in the
positive-total case via the cumulative walk with last-index fallback, and
in the non-positive-total case via the uniform fallback — so
`_weighted_choice` never accesses a card outside the supplied list. -/
theorem weightedIndex_in_bounds (weights : List ℚ) (r : ℚ)
    (h0 : 0 ≤ r) (h1 : r < 1) (hne : weights ≠ []) :
    weightedIndex weights r < weights.length ∧
    ∀ cards : List Card, weights.length = cards.length →
      weightedChoice cards weights r ∈ cards := by
  refine ⟨weightedIndex_bound h0 h1 hne, ?_⟩
  intro cards hlen
  unfold weightedChoice
  exact getD_mem (hlen ▸ weightedIndex_bound h0 h1 hne)

/-- Witness for C10 at a concrete weight list and random value. -/
theorem weightedIndex_in_bounds_witness :
    (0 : ℚ) ≤ 1 / 2 ∧ (1 / 2 : ℚ) < 1 ∧ ([(2 : ℚ), 3] ≠ []) ∧
    weightedIndex [(2 : ℚ), 3] (1 / 2) < 2 :=
  ⟨by norm_num, by norm_num, by simp,
    (weightedIndex_in_bounds [(2 : ℚ), 3] (1 / 2) (by norm_num) (by norm_num) (by simp)).1⟩

/-- C2: the remaining cooldown is `max 0 (base_cooldown_seconds - elapsed)`
with both timestamps normalized to UTC (a naive timestamp denotes the same
UTC instant as the aware one with offset 0), a missing `last_drop_at`
yields 0, the two boundary cases behave as specified, and — for a
non-banned player — `drop_from_pack` fails with `CooldownActive` carrying
exactly the remaining seconds iff the remaining is positive. Timestamps
are embedded at one-second granularity, where `int(total_seconds())` is
the identity. -/
theorem cooldown_spec (cfg : DropConfig) (record : PlayerRecord) (now : PyDT) :
    (record.last_drop_at = none → cooldownRemaining cfg record now = 0) ∧
    (∀ last, record.last_drop_at = some last →
      cooldownRemaining cfg record now =
        max 0 (cfg.base_cooldown_seconds - (now.toUTC - last.toUTC))) ∧
    (∀ t : Int, PyDT.toUTC { wall := t, off := none } =
      PyDT.toUTC { wall := t, off := some 0 }) ∧
    (∀ last, record.last_drop_at = some last →
      now.toUTC - last.toUTC = cfg.base_cooldown_seconds →
      cooldownRemaining cfg record now = 0) ∧
    (∀ last, record.last_drop_at = some last →
      now.toUTC - last.toUTC = cfg.base_cooldown_seconds - 1 →
      cooldownRemaining cfg record now = 1) ∧
    (record.is_banned = false →
      ∀ cat registered strategy pack_id rands,
        ((∃ k, dropFromPack cat registered cfg strategy record now pack_id rands =
            .error (.cooldownActive k)) ↔ 0 < cooldownRemaining cfg record now) ∧
        (∀ k, dropFromPack cat registered cfg strategy record now pack_id rands =
            .error (.cooldownActive k) → k = cooldownRemaining cfg record now)) := by
  refine ⟨?_, ?_, ?_, ?_, ?_, ?_⟩
  · intro h
    unfold cooldownRemaining
    rw [h]
  · intro last h
    unfold cooldownRemaining
    rw [h]
  · intro t
    simp [PyDT.toUTC]
  · intro last h heq
    unfold cooldownRemaining
    rw [h]
    dsimp only
    rw [heq]
    simp
  · intro last h heq
    unfold cooldownRemaining
    rw [h]
    dsimp only
    rw [heq]
    simp
  · intro hban cat registered strategy pack_id rands
    constructor
    · constructor
      · rintro ⟨k, hk⟩
        unfold dropFromPack at hk
        rw [hban] at hk
        simp only [Bool.false_eq_true, if_false] at hk
        split at hk
        next hpos => exact hpos
        next hpos => exact absurd hk (dropCore_ne_cooldown _ _ _ _ _ _ _ _ _)
      · intro hpos
        refine ⟨cooldownRemaining cfg record now, ?_⟩
        unfold dropFromPack
        rw [hban]
        simp only [Bool.false_eq_true, if_false]
        rw [if_pos hpos]
    · intro k hk
      unfold dropFromPack at hk
      rw [hban] at hk
      simp only [Bool.false_eq_true, if_false] at hk
      split at hk
      next =>
        simp at hk
        exact hk.symm
      next => exact absurd hk (dropCore_ne_cooldown _ _ _ _ _ _ _ _ _)

/-- Witness for C2: one second short of the 3600-second cooldown leaves
remaining 1, and the drop call fails with `CooldownActive`. -/
theorem cooldown_spec_witness :
    cooldownRemaining { base_cooldown_seconds := 3600 }
      { user_id := 7, last_drop_at := some { wall := 0, off := some 0 } }
      { wall := 3599, off := some 0 } = 1 ∧
    (∃ k, dropFromPack testCat [] { base_cooldown_seconds := 3600 } .penalty
      { user_id := 7, last_drop_at := some { wall := 0, off := some 0 } }
      { wall := 3599, off := some 0 } "starters" [] = .error (.cooldownActive k)) :=
  ⟨(cooldown_spec _ _ _).2.2.2.2.1 _ rfl (by decide),
   ((cooldown_spec _ _ _).2.2.2.2.2 rfl testCat [] .penalty "starters" []).1.mpr
     (by decide)⟩

/-- C7: for a positive amount, `spend` raises `InsufficientCurrency`
exactly when the stored balance is below the amount, leaving the persisted
wallet unchanged in that case; both `spend` and `credit` reject a
non-positive amount with a `ValueError`, leaving all player state
unchanged. -/
theorem spend_credit_spec (record : PlayerRecord) (currency : String) (amount : Int) :
    (0 < amount →
      ((∃ msg, spend record currency amount = .error (.insufficientCurrency msg)) ↔
        dictGet record.wallet currency < amount)) ∧
    (0 < amount → dictGet record.wallet currency < amount →
      persistAfter record (spend record currency amount) = record) ∧
    (amount ≤ 0 →
      spend record currency amount = .error (.valueError "Amount must be positive") ∧
      credit record currency amount = .error (.valueError "Amount must be positive") ∧
      persistAfter record (spend record currency amount) = record ∧
      persistAfter record (credit record currency amount) = record) := by
  refine ⟨?_, ?_, ?_⟩
  · intro hpos
    unfold spend
    rw [if_neg (by omega)]
    unfold Wallet.debit
    rw [if_neg (by omega)]
    dsimp only
    by_cases hlt : dictGet record.wallet currency < amount
    · rw [if_pos hlt]
      exact ⟨fun _ => hlt, fun _ => ⟨_, rfl⟩⟩
    · rw [if_neg hlt]
      constructor
      · rintro ⟨msg, hm⟩
        simp at hm
      · intro h
        exact absurd h hlt
  · intro hpos hlt
    unfold persistAfter spend
    rw [if_neg (by omega)]
    unfold Wallet.debit
    rw [if_neg (by omega)]
    dsimp only
    rw [if_pos hlt]
  · intro hle
    refine ⟨?_, ?_, ?_, ?_⟩
    · unfold spend
      rw [if_pos hle]
    · unfold credit
      rw [if_pos hle]
    · unfold persistAfter spend
      rw [if_pos hle]
    · unfold persistAfter credit
      rw [if_pos hle]

/-- Witness for C7: spending 7 coins from a balance of 5 fails with
`InsufficientCurrency` and leaves the wallet unchanged. -/
theorem spend_credit_spec_witness :
    (0 : Int) < 7 ∧ dictGet [("coins", 5)] "coins" < 7 ∧
    (∃ msg, spend { user_id := 1, wallet := [("coins", 5)] } "coins" 7 =
      .error (.insufficientCurrency msg)) ∧
    persistAfter { user_id := 1, wallet := [("coins", 5)] }
      (spend { user_id := 1, wallet := [("coins", 5)] } "coins" 7) =
      { user_id := 1, wallet := [("coins", 5)] } :=
  ⟨by norm_num, by decide,
   ((spend_credit_spec { user_id := 1, wallet := [("coins", 5)] } "coins" 7).1
     (by norm_num)).mpr (by decide),
   (spend_credit_spec { user_id := 1, wallet := [("coins", 5)] } "coins" 7).2.1
     (by norm_num) (by decide)⟩

/-- C8: for a positive quantity and a card whose `max_copies` cap is known
to the attached catalog, `add_card` fails with a no-cards-available error
exactly when the owned count is at or above the cap (leaving the inventory
unchanged), and otherwise adds the requested quantity. -/
theorem addCard_spec (cat : CardCatalog) (record : PlayerRecord) (card_id : String)
    (quantity : Int) (card : Card) (m : Int)
    (hq : 0 < quantity) (hc : getCard cat card_id = .ok card)
    (hm : card.max_copies = some m) :
    ((∃ msg, addCard (some cat) record card_id quantity =
        .error (.noCardsAvailable msg)) ↔
      m ≤ dictGet record.inventory card_id) ∧
    (m ≤ dictGet record.inventory card_id →
      persistAfter record (addCard (some cat) record card_id quantity) = record) ∧
    (dictGet record.inventory card_id < m →
      addCard (some cat) record card_id quantity =
        .ok { record with
              inventory := dictSet record.inventory card_id
                (dictGet record.inventory card_id + quantity) }) := by
  have hstep : addCard (some cat) record card_id quantity =
      (if m ≤ dictGet record.inventory card_id then
        .error (.noCardsAvailable ("Cannot grant card " ++ card_id ++ ": limit reached"))
      else .ok { record with
                 inventory := dictSet record.inventory card_id
                   (dictGet record.inventory card_id + quantity) }) := by
    unfold addCard
    rw [if_neg (by omega)]
    dsimp only
    rw [hc]
    dsimp only
    rw [hm]
  refine ⟨?_, ?_, ?_⟩
  · rw [hstep]
    by_cases hle : m ≤ dictGet record.inventory card_id
    · rw [if_pos hle]
      exact ⟨fun _ => hle, fun _ => ⟨_, rfl⟩⟩
    · rw [if_neg hle]
      constructor
      · rintro ⟨msg, hmm⟩
        simp at hmm
      · intro h
        exact absurd h hle
  · intro hle
    unfold persistAfter
    rw [hstep, if_pos hle]
  · intro hlt
    rw [hstep, if_neg (by omega)]

/-- Witness for C8: granting a second copy of a `max_copies = 1` card
fails, granting the first succeeds. -/
theorem addCard_spec_witness :
    (0 : Int) < 1 ∧ getCard uniqCat "unique" = .ok uniqueCard ∧
    uniqueCard.max_copies = some 1 ∧
    (∃ msg, addCard (some uniqCat) { user_id := 1, inventory := [("unique", 1)] }
      "unique" 1 = .error (.noCardsAvailable msg)) ∧
    addCard (some uniqCat) { user_id := 1 } "unique" 1 =
      .ok { user_id := 1, inventory := [("unique", 1)] } := by
  refine ⟨by norm_num, rfl, rfl, ?_, ?_⟩
  · exact ((addCard_spec uniqCat { user_id := 1, inventory := [("unique", 1)] }
      "unique" 1 uniqueCard 1 (by norm_num) rfl rfl).1).mpr (by decide)
  · have h := (addCard_spec uniqCat { user_id := 1 } "unique" 1 uniqueCard 1
      (by norm_num) rfl rfl).2.2 (by decide)
    exact h

/-- Counterexample to C3 as stated: a catalog document with no
`currencies` field has no `coins` currency declared, yet its error list
does not contain the "coins must be defined" entry — the validator emits
the non-empty-array error instead, because the coins check runs only in
the branch where `currencies` is a non-empty list. -/
theorem coins_error_counterexample :
    coinsMsg ∉ validateCatalogDict [] := by
  decide

/-- C3 (amended): for every catalog document whose `currencies` field is a
non-empty list whose declared codes do not include `coins`, the error list
contains the "coins must be defined" entry; documents with a missing or
empty currencies array get the non-empty-array error instead. Validation
accumulates: the same universally-quantified document may carry arbitrary
other violations, and a missing `cards` section contributes its own error
alongside the coins one. -/
theorem coins_error_spec (data : List (String × JVal)) (entries : List JVal)
    (h : jGetPy data "currencies" = some (.arr entries))
    (hne : entries.isEmpty = false)
    (hcoins : (currenciesFold [] [] 1 entries).2.contains "coins" = false) :
    coinsMsg ∈ validateCatalogDict data ∧
    (jGetPy data "cards" = none →
      ("Catalog must contain non-empty " ++ quoted "cards" ++ " array.") ∈
        validateCatalogDict data) := by
  have hcur : validateCurrencies data =
      ((currenciesFold [] [] 1 entries).1 ++ [coinsMsg],
        (currenciesFold [] [] 1 entries).2) := by
    unfold validateCurrencies
    rw [h]
    dsimp only
    rw [hne, hcoins]
    simp
  constructor
  · unfold validateCatalogDict
    dsimp only
    rw [hcur]
    exact List.mem_append_left _ (List.mem_append_left _
      (List.mem_append_right _ (List.mem_singleton_self _)))
  · intro hcards
    unfold validateCatalogDict
    dsimp only
    have hcv : (validateCards (validateCurrencies data).2 data).1 =
        ["Catalog must contain non-empty " ++ quoted "cards" ++ " array."] := by
      unfold validateCards
      rw [hcards]
    exact List.mem_append_left _ (List.mem_append_right _
      (hcv ▸ List.mem_singleton_self _))

/-- Witness for C3 (amended) at a one-currency document lacking `coins`
and any `cards` section: both errors are accumulated. -/
theorem coins_error_spec_witness :
    coinsMsg ∈ validateCatalogDict
      [("currencies", JVal.arr [JVal.obj [("code", JVal.str "gold")]])] ∧
    ("Catalog must contain non-empty " ++ quoted "cards" ++ " array.") ∈
      validateCatalogDict
        [("currencies", JVal.arr [JVal.obj [("code", JVal.str "gold")]])] :=
  ⟨(coins_error_spec
      [("currencies", JVal.arr [JVal.obj [("code", JVal.str "gold")]])]
      [JVal.obj [("code", JVal.str "gold")]] rfl rfl (by decide)).1,
   (coins_error_spec
      [("currencies", JVal.arr [JVal.obj [("code", JVal.str "gold")]])]
      [JVal.obj [("code", JVal.str "gold")]] rfl rfl (by decide)).2 rfl⟩

theorem weightedIndex_singleton_pos {w : ℚ} (r : ℚ) (hw : 0 < w) :
    weightedIndex [w] r = 0 := by
  unfold weightedIndex
  have hsum : List.sum [w] = w := by simp
  rw [hsum, if_neg (not_le.mpr hw)]
  by_cases ht : r * w ≤ 0 + w
  · rw [cumulFind]
    rw [if_pos ht]
    rfl
  · rw [cumulFind]
    rw [if_neg ht]
    rw [cumulFind]
    rfl

theorem drawWithout_one (c : Card) {w : ℚ} (rands : List ℚ) (hw : 0 < w) :
    drawWithout [c] [w] 1 rands = [c] := by
  unfold drawWithout
  rw [weightedIndex_singleton_pos _ hw]
  rfl

theorem drawWith_one (c : Card) {w : ℚ} (rands : List ℚ) (hw : 0 < w) :
    drawWith [c] [w] 1 rands = [c] := by
  unfold drawWith weightedChoice
  rw [weightedIndex_singleton_pos _ hw]
  rfl

theorem dropCore_to_finish {cat : CardCatalog} {pack_id : String} {pack : CardPack}
    {cards : List Card} (registered : List String) (cfg : DropConfig)
    (strategy : DuplicateStrategy) (record : PlayerRecord) (now : PyDT)
    (rands : List ℚ)
    (hp : getPack cat pack_id = .ok pack)
    (hc : getCards cat pack.cards = .ok cards)
    (hne : (filterCards cards record (cfg.allow_duplicates && pack.allow_duplicates)).isEmpty
      = false) :
    dropCore cat registered cfg strategy record now pack_id rands =
      dropFinish registered cfg strategy record now
        (cfg.allow_duplicates && pack.allow_duplicates)
        (drawCards cfg pack
          (filterCards cards record (cfg.allow_duplicates && pack.allow_duplicates))
          (min pack.max_per_roll (min cfg.max_cards_per_drop
            (filterCards cards record (cfg.allow_duplicates && pack.allow_duplicates)).length))
          (cfg.allow_duplicates && pack.allow_duplicates) rands) := by
  unfold dropCore
  rw [hp]
  dsimp only
  rw [hc]
  dsimp only
  rw [hne]
  simp

theorem length_drawCards (cfg : DropConfig) (pack : CardPack) (cards : List Card)
    (amount : Nat) (a : Bool) (rands : List ℚ) (hle : amount ≤ cards.length) :
    (drawCards cfg pack cards amount a rands).length = amount := by
  unfold drawCards
  split
  · exact length_drawWith _ _ _ _
  · rw [length_drawWithout]
    omega

theorem dropFromPack_ok_core {cat : CardCatalog} {registered : List String}
    {cfg : DropConfig} {strategy : DuplicateStrategy} {record : PlayerRecord}
    {now : PyDT} {pack_id : String} {rands : List ℚ} {res : DropOutcome × PlayerRecord}
    (h : dropFromPack cat registered cfg strategy record now pack_id rands = .ok res) :
    dropCore cat registered cfg strategy record now pack_id rands = .ok res := by
  unfold dropFromPack at h
  split at h
  · exact absurd h (by simp)
  · dsimp only at h
    split at h
    · exact absurd h (by simp)
    · exact h

theorem fixture_first_drop (now : PyDT) (rands : List ℚ) :
    dropFromPack testCat ["coins", "gems"] cfgND .penalty { user_id := 1 } now
      "starters" rands =
      .ok ({ cards := [alphaCard],
             reward := { currencies := [("coins", 5)], experience := 2 },
             duplicates := [],
             next_drop_at := now.addSeconds 0 },
           { user_id := 1, inventory := [("alpha", 1)], wallet := [("coins", 5)],
             experience := 2, last_drop_at := some now }) := by
  have hd : drawCards cfgND
      { pack_id := "starters", name := "Starter Pack", cards := ["alpha"] }
      [alphaCard] 1 false rands = [alphaCard] := by
    show drawWithout [alphaCard] [(1 : ℚ)] 1 rands = [alphaCard]
    exact drawWithout_one alphaCard rands one_pos
  calc dropFromPack testCat ["coins", "gems"] cfgND .penalty
          { user_id := 1 } now "starters" rands
      = dropFinish ["coins", "gems"] cfgND .penalty { user_id := 1 } now false
          (drawCards cfgND
            { pack_id := "starters", name := "Starter Pack", cards := ["alpha"] }
            [alphaCard] 1 false rands) := rfl
    _ = dropFinish ["coins", "gems"] cfgND .penalty { user_id := 1 } now false
          [alphaCard] := by rw [hd]
    _ = .ok ({ cards := [alphaCard],
               reward := { currencies := [("coins", 5)], experience := 2 },
               duplicates := [],
               next_drop_at := now.addSeconds 0 },
             { user_id := 1, inventory := [("alpha", 1)], wallet := [("coins", 5)],
               experience := 2, last_drop_at := some now }) := rfl

/-- C5: every successful `drop_from_pack` draws exactly
`min(pack.max_per_roll, max_cards_per_drop, eligible-count)` cards, the
outcome's `cards` field is the full drawn list (every duplicate also
appears in it), and `next_drop_at` is the drop time plus
`base_cooldown_seconds`. -/
theorem dropOutcome_spec (cat : CardCatalog) (registered : List String)
    (cfg : DropConfig) (strategy : DuplicateStrategy) (record : PlayerRecord)
    (now : PyDT) (pack_id : String) (rands : List ℚ) (outcome : DropOutcome)
    (record2 : PlayerRecord) (pack : CardPack) (cards : List Card)
    (hp : getPack cat pack_id = .ok pack)
    (hc : getCards cat pack.cards = .ok cards)
    (h : dropFromPack cat registered cfg strategy record now pack_id rands =
      .ok (outcome, record2)) :
    outcome.cards.length =
      min pack.max_per_roll (min cfg.max_cards_per_drop
        (filterCards cards record (cfg.allow_duplicates && pack.allow_duplicates)).length) ∧
    (∀ c ∈ outcome.duplicates, c ∈ outcome.cards) ∧
    outcome.next_drop_at = now.addSeconds cfg.base_cooldown_seconds := by
  obtain ⟨pack2, cards2, hp2, hc2, hne, hcards, hdups, hrew, hnext, hrest⟩ :=
    dropCore_ok_shape (dropFromPack_ok_core h)
  rw [hp] at hp2
  have hpe : pack2 = pack := by
    simpa using hp2.symm
  subst hpe
  rw [hc] at hc2
  have hce : cards2 = cards := by
    simpa using hc2.symm
  subst hce
  refine ⟨?_, ?_, hnext⟩
  · rw [hcards]
    exact length_drawCards _ _ _ _ _ _ (by omega)
  · intro c hcmem
    rw [hdups] at hcmem
    unfold processDrawn at hcmem
    rcases foldl_dropStep_dups _ _ _ _ _ _ hcmem with hx | hx
    · simp at hx
    · exact hx

/-- Witness for C5: the fixture drop draws exactly one card, has no
duplicates, and schedules the next drop at `now + 0`. -/
theorem dropOutcome_spec_witness :
    (getPack testCat "starters" =
      .ok { pack_id := "starters", name := "Starter Pack", cards := ["alpha"] }) ∧
    (getCards testCat ["alpha"] = .ok [alphaCard]) ∧
    (dropFromPack testCat ["coins", "gems"] cfgND .penalty { user_id := 1 }
      { wall := 1000, off := some 0 } "starters" [] =
      .ok ({ cards := [alphaCard],
             reward := { currencies := [("coins", 5)], experience := 2 },
             duplicates := [],
             next_drop_at := { wall := 1000, off := some 0 } },
           { user_id := 1, inventory := [("alpha", 1)], wallet := [("coins", 5)],
             experience := 2,
             last_drop_at := some { wall := 1000, off := some 0 } })) ∧
    ([alphaCard].length = 1 ∧
      (∀ c ∈ ([] : List Card), c ∈ [alphaCard]) ∧
      ({ wall := 1000, off := some 0 } : PyDT) =
        PyDT.addSeconds { wall := 1000, off := some 0 } 0) := by
  refine ⟨rfl, rfl, fixture_first_drop { wall := 1000, off := some 0 } [], ?_⟩
  exact dropOutcome_spec testCat ["coins", "gems"] cfgND .penalty { user_id := 1 }
    { wall := 1000, off := some 0 } "starters" []
    { cards := [alphaCard],
      reward := { currencies := [("coins", 5)], experience := 2 },
      duplicates := [],
      next_drop_at := { wall := 1000, off := some 0 } }
    { user_id := 1, inventory := [("alpha", 1)], wallet := [("coins", 5)],
      experience := 2, last_drop_at := some { wall := 1000, off := some 0 } }
    { pack_id := "starters", name := "Starter Pack", cards := ["alpha"] }
    [alphaCard] rfl rfl
    (fixture_first_drop { wall := 1000, off := some 0 } [])

/-- Counterexample to C1 as stated: for a pack with duplicates disallowed
holding a `max_copies = 1` card, the first drop succeeds and grants the
card, but the second drop for the same player raises `NoCardsAvailable`
instead of reporting the card in `duplicates` — `_filter_cards` excludes
already-owned cards from the eligible set when duplicates are disallowed,
so the duplicate path is never reached. -/
theorem duplicate_drop_counterexample :
    (dropFromPack uniqCatND ["coins", "dust"] cfgDup (.dust "dust" 5) { user_id := 1 }
      { wall := 0, off := some 0 } "uniques" [] =
      .ok ({ cards := [uniqueCard],
             reward := { currencies := [("coins", 10)], experience := 0 },
             duplicates := [],
             next_drop_at := { wall := 0, off := some 0 } },
           { user_id := 1, inventory := [("unique", 1)], wallet := [("coins", 10)],
             last_drop_at := some { wall := 0, off := some 0 } })) ∧
    dropFromPack uniqCatND ["coins", "dust"] cfgDup (.dust "dust" 5)
      { user_id := 1, inventory := [("unique", 1)], wallet := [("coins", 10)],
        last_drop_at := some { wall := 0, off := some 0 } }
      { wall := 1000, off := some 0 } "uniques" [] =
      .error (.noCardsAvailable "No cards available for pack uniques") := by
  constructor
  · have hd : drawCards cfgDup
        { pack_id := "uniques", name := "Uniques", cards := ["unique"],
          allow_duplicates := false }
        [uniqueCard] 1 false [] = [uniqueCard] := by
      show drawWithout [uniqueCard] [(1 : ℚ)] 1 [] = [uniqueCard]
      exact drawWithout_one uniqueCard [] one_pos
    calc dropFromPack uniqCatND ["coins", "dust"] cfgDup (.dust "dust" 5)
            { user_id := 1 } { wall := 0, off := some 0 } "uniques" []
        = dropFinish ["coins", "dust"] cfgDup (.dust "dust" 5) { user_id := 1 }
            { wall := 0, off := some 0 } false
            (drawCards cfgDup
              { pack_id := "uniques", name := "Uniques", cards := ["unique"],
                allow_duplicates := false }
              [uniqueCard] 1 false []) := rfl
      _ = dropFinish ["coins", "dust"] cfgDup (.dust "dust" 5) { user_id := 1 }
            { wall := 0, off := some 0 } false [uniqueCard] := by rw [hd]
      _ = .ok ({ cards := [uniqueCard],
                 reward := { currencies := [("coins", 10)], experience := 0 },
                 duplicates := [],
                 next_drop_at := { wall := 0, off := some 0 } },
               { user_id := 1, inventory := [("unique", 1)],
                 wallet := [("coins", 10)],
                 last_drop_at := some { wall := 0, off := some 0 } }) := rfl
  · rfl

theorem uniqDropEval (w : List (String × Int)) (now : PyDT)
    (rands : List ℚ) :
    dropFromPack uniqCat ["coins", "dust"] cfgDup (.dust "dust" 5)
      { user_id := 1, inventory := [("unique", 1)], wallet := w }
      now "uniques" rands =
      .ok ({ cards := [uniqueCard],
             reward := { currencies := [("dust", 5)], experience := 0 },
             duplicates := [uniqueCard],
             next_drop_at := now.addSeconds 0 },
           { user_id := 1, inventory := [("unique", 1)],
             wallet := dictSet w "dust" (dictGet w "dust" + 5),
             last_drop_at := some now }) := by
  have hd : drawCards cfgDup
      { pack_id := "uniques", name := "Uniques", cards := ["unique"] }
      [uniqueCard] 1 true rands = [uniqueCard] := by
    show drawWith [uniqueCard] [(1 : ℚ)] 1 rands = [uniqueCard]
    exact drawWith_one uniqueCard rands one_pos
  calc dropFromPack uniqCat ["coins", "dust"] cfgDup (.dust "dust" 5)
          { user_id := 1, inventory := [("unique", 1)], wallet := w }
          now "uniques" rands
      = dropFinish ["coins", "dust"] cfgDup (.dust "dust" 5)
          { user_id := 1, inventory := [("unique", 1)], wallet := w } now true
          (drawCards cfgDup
            { pack_id := "uniques", name := "Uniques", cards := ["unique"] }
            [uniqueCard] 1 true rands) := rfl
    _ = dropFinish ["coins", "dust"] cfgDup (.dust "dust" 5)
          { user_id := 1, inventory := [("unique", 1)], wallet := w } now true
          [uniqueCard] := by rw [hd]
    _ = .ok ({ cards := [uniqueCard],
               reward := { currencies := [("dust", 5)], experience := 0 },
               duplicates := [uniqueCard],
               next_drop_at := now.addSeconds 0 },
             { user_id := 1, inventory := [("unique", 1)],
               wallet := dictSet w "dust" (dictGet w "dust" + 5),
               last_drop_at := some now }) := rfl

/-- C1 (amended): for a pack with duplicates ALLOWED containing a
`max_copies = 1` card the player already owns (count 1), a second
`drop_from_pack` reports that card in the outcome's `duplicates` list,
leaves its inventory count at 1, and credits the duplicate-substitute
reward computed by the configured strategy (here flat 5 "dust") to the
player's wallet — for every starting wallet, drop time and rng stream. -/
theorem duplicate_substitute_spec (w : List (String × Int)) (now : PyDT)
    (rands : List ℚ) :
    dropFromPack uniqCat ["coins", "dust"] cfgDup (.dust "dust" 5)
      { user_id := 1, inventory := [("unique", 1)], wallet := w }
      now "uniques" rands =
      .ok ({ cards := [uniqueCard],
             reward := { currencies := [("dust", 5)], experience := 0 },
             duplicates := [uniqueCard],
             next_drop_at := now.addSeconds 0 },
           { user_id := 1, inventory := [("unique", 1)],
             wallet := dictSet w "dust" (dictGet w "dust" + 5),
             last_drop_at := some now }) :=
  uniqDropEval w now rands

theorem nodup_key_unique {α : Type} :
    ∀ {l : List (String × α)}, (l.map Prod.fst).Nodup →
      ∀ {k : String} {a b : α}, (k, a) ∈ l → (k, b) ∈ l → a = b := by
  intro l
  induction l with
  | nil =>
    intro _ k a b ha _
    simp at ha
  | cons p rest ih =>
    intro hnd k a b ha hb
    rw [List.map_cons, List.nodup_cons] at hnd
    rcases List.mem_cons.mp ha with ha2 | ha2 <;> rcases List.mem_cons.mp hb with hb2 | hb2
    · have heq : (k, a) = (k, b) := ha2.trans hb2.symm
      injection heq with _ h2
    · exfalso
      apply hnd.1
      rw [← ha2]
      exact List.mem_map.mpr ⟨(k, b), hb2, rfl⟩
    · exfalso
      apply hnd.1
      rw [← hb2]
      exact List.mem_map.mpr ⟨(k, a), ha2, rfl⟩
    · exact ih hnd.2 ha2 hb2

/-- C9 (implicit): a successful `drop_from_pack` never raises a card's
owned count above its `max_copies` cap, even when duplicates are allowed —
each drawn card is re-checked against the in-progress record, and a card
already at its cap is routed to the duplicate strategy instead of being
incremented. Requires the catalog invariant maintained by `register_card`
(entries keyed by their card id, unique keys) and rng draws in `[0, 1)`. -/
theorem drop_respects_max_copies (cat : CardCatalog) (registered : List String)
    (cfg : DropConfig) (strategy : DuplicateStrategy) (record : PlayerRecord)
    (now : PyDT) (pack_id : String) (rands : List ℚ) (outcome : DropOutcome)
    (record2 : PlayerRecord) (cid : String) (card : Card) (m : Int)
    (hwf : CatalogWF cat) (hr : RandsOK rands)
    (hc : getCard cat cid = .ok card) (hm : card.max_copies = some m)
    (hpre : dictGet record.inventory cid ≤ m)
    (h : dropFromPack cat registered cfg strategy record now pack_id rands =
      .ok (outcome, record2)) :
    dictGet record2.inventory cid ≤ m := by
  obtain ⟨pack, cards, hp2, hgc, hne, hcards, hdups, hrewe, hnext, hinv, hexp, hlast,
    wallet, hw, hwb⟩ := dropCore_ok_shape (dropFromPack_ok_core h)
  rw [hinv]
  unfold processDrawn
  apply foldl_dropStep_cap
  · intro d hd hdc
    rw [hcards] at hd
    have hne2 : filterCards cards record (cfg.allow_duplicates && pack.allow_duplicates)
        ≠ [] := by
      intro hh
      rw [hh] at hne
      simp at hne
    have hd2 := mem_drawCards hr hne2 d hd
    have hd3 : d ∈ cards := List.mem_of_mem_filter hd2
    obtain ⟨cid2, _, hg2⟩ := getCards_ok_mem hgc d hd3
    have hdmem := getCard_ok_mem hg2
    have hcmem := getCard_ok_mem hc
    have h1 : d.card_id = cid2 := hwf.1 _ hdmem
    have hcid2 : cid2 = cid := by rw [← h1, hdc]
    subst hcid2
    have hde : d = card := nodup_key_unique hwf.2 hdmem hcmem
    rw [hde, hm]
  · exact hpre

/-- Witness for C9: dropping from the uniques pack with the card already
at its cap of 1 leaves the owned count at 1. -/
theorem drop_respects_max_copies_witness :
    CatalogWF uniqCat ∧ RandsOK [] ∧ getCard uniqCat "unique" = .ok uniqueCard ∧
    uniqueCard.max_copies = some 1 ∧
    dictGet [("unique", 1)] "unique" ≤ 1 :=
  ⟨⟨by decide, by decide⟩, fun r hr => absurd hr (by simp), rfl, rfl, by
    have := drop_respects_max_copies uniqCat ["coins", "dust"] cfgDup (.dust "dust" 5)
      { user_id := 1, inventory := [("unique", 1)], wallet := [] }
      { wall := 0, off := some 0 } "uniques" []
      { cards := [uniqueCard],
        reward := { currencies := [("dust", 5)], experience := 0 },
        duplicates := [uniqueCard],
        next_drop_at := { wall := 0, off := some 0 } }
      { user_id := 1, inventory := [("unique", 1)], wallet := [("dust", 5)],
        last_drop_at := some { wall := 0, off := some 0 } }
      "unique" uniqueCard 1 ⟨by decide, by decide⟩
      (fun r hr => absurd hr (by simp)) rfl rfl (by decide)
      (uniqDropEval [] { wall := 0, off := some 0 } [])
    exact this⟩

theorem debit_ok_nonneg {w w2 : Wallet} {c : String} {a : Int}
    (hw : ∀ p ∈ w.balances, 0 ≤ p.2) (h : w.debit c a = .ok w2) :
    ∀ p ∈ w2.balances, 0 ≤ p.2 := by
  unfold Wallet.debit at h
  split at h
  · exact absurd h (by simp)
  · dsimp only at h
    split at h
    · exact absurd h (by simp)
    next hge =>
      simp at h
      subst h
      intro p hp
      rcases mem_dictSet hp with hp2 | hp2
      · subst hp2
        simp only
        omega
      · exact hw p hp2

theorem credit_ok_nonneg {w w2 : Wallet} {c : String} {a : Int}
    (hw : ∀ p ∈ w.balances, 0 ≤ p.2) (h : w.credit c a = .ok w2) :
    ∀ p ∈ w2.balances, 0 ≤ p.2 := by
  unfold Wallet.credit at h
  split at h
  · exact absurd h (by simp)
  next hnn =>
    simp at h
    subst h
    intro p hp
    rcases mem_dictSet hp with hp2 | hp2
    · subst hp2
      have := dictGet_nonneg (k := c) hw
      simp only
      omega
    · exact hw p hp2

/-- C6 (invariant): starting from a record with all wallet balances and
experience non-negative, every mutating operation preserves the invariant:
`spend`, `credit`, `add_card` (success or failure), `grant_experience`
(which clamps at zero), and a successful `drop_from_pack` in which every
catalog card carries a non-negative reward. No wallet balance is ever
persisted negative. -/
theorem nonneg_preserved (record : PlayerRecord) (h : RecordNonneg record) :
    (∀ currency amount,
      RecordNonneg (persistAfter record (spend record currency amount))) ∧
    (∀ currency amount,
      RecordNonneg (persistAfter record (credit record currency amount))) ∧
    (∀ catalog card_id quantity,
      RecordNonneg (persistAfter record (addCard catalog record card_id quantity))) ∧
    (∀ amount, RecordNonneg (grantExperience record amount)) ∧
    (∀ cat registered cfg strategy now pack_id rands outcome record2,
      (∀ cid c, getCard cat cid = .ok c → RewardNonneg c.reward) →
      dropFromPack cat registered cfg strategy record now pack_id rands =
        .ok (outcome, record2) →
      RecordNonneg record2) := by
  refine ⟨?_, ?_, ?_, ?_, ?_⟩
  · intro currency amount
    unfold persistAfter
    cases hres : spend record currency amount with
    | error e => exact h
    | ok r2 =>
      unfold spend at hres
      split at hres
      · exact absurd hres (by simp)
      · split at hres
        · exact absurd hres (by simp)
        · exact absurd hres (by simp)
        next w hd =>
          simp at hres
          subst hres
          exact ⟨debit_ok_nonneg h.1 hd, h.2⟩
  · intro currency amount
    unfold persistAfter
    cases hres : credit record currency amount with
    | error e => exact h
    | ok r2 =>
      unfold credit at hres
      split at hres
      · exact absurd hres (by simp)
      · split at hres
        · exact absurd hres (by simp)
        next w hd =>
          simp at hres
          subst hres
          exact ⟨credit_ok_nonneg h.1 hd, h.2⟩
  · intro catalog card_id quantity
    unfold persistAfter
    cases hres : addCard catalog record card_id quantity with
    | error e => exact h
    | ok r2 =>
      unfold addCard at hres
      split at hres
      · exact absurd hres (by simp)
      · dsimp only at hres
        split at hres
        · exact absurd hres (by simp)
        · split at hres
          · split at hres
            · exact absurd hres (by simp)
            · simp at hres
              subst hres
              exact ⟨h.1, h.2⟩
          · simp at hres
            subst hres
            exact ⟨h.1, h.2⟩
  · intro amount
    unfold grantExperience
    split
    · exact h
    · exact ⟨h.1, le_max_left 0 _⟩
  · intro cat registered cfg strategy now pack_id rands outcome record2 hrew h2
    obtain ⟨pack, cards, hp2, hgc, hne, hcards, hdups, hrewe, hnext, hinv, hexp, hlast,
      wallet, hw, hwb⟩ := dropCore_ok_shape (dropFromPack_ok_core h2)
    have hfields := foldl_dropStep_record_fields strategy cfg
      (cfg.allow_duplicates && pack.allow_duplicates) outcome.cards
      (record, [], ({} : CardReward))
    have hrnn : RewardNonneg
        (processDrawn strategy cfg (cfg.allow_duplicates && pack.allow_duplicates)
          record outcome.cards).2.2 := by
      unfold processDrawn
      apply foldl_dropStep_reward_nonneg
      · intro d hd
        rw [hcards] at hd
        rcases mem_drawCards_weak d hd with hd2 | hd2
        · obtain ⟨cid, _, hg⟩ := getCards_ok_mem hgc d (List.mem_of_mem_filter hd2)
          exact hrew cid d hg
        · subst hd2
          exact ⟨fun p hp => by simp [default] at hp, le_refl 0⟩
      · exact ⟨fun p hp => by simp at hp, le_refl 0⟩
    constructor
    · rw [hwb]
      apply mergeRewards_nonneg (w := { balances :=
        (processDrawn strategy cfg (cfg.allow_duplicates && pack.allow_duplicates)
          record outcome.cards).1.wallet }) ?_ ?_ hw
      · intro p hp
        simp only at hp
        unfold processDrawn at hp
        rw [hfields.1] at hp
        exact h.1 p hp
      · rw [hrewe]
        exact hrnn.1
    · rw [hexp]
      have h1 : (processDrawn strategy cfg (cfg.allow_duplicates && pack.allow_duplicates)
          record outcome.cards).1.experience = record.experience := hfields.2
      rw [h1, hrewe]
      have := h.2
      have := hrnn.2
      omega

/-- Witness for C6: the invariant holds for a concrete record and is
preserved by a failing spend and by a negative experience grant. -/
theorem nonneg_preserved_witness :
    RecordNonneg { user_id := 1, wallet := [("coins", 5)], experience := 2 } ∧
    RecordNonneg (persistAfter { user_id := 1, wallet := [("coins", 5)], experience := 2 }
      (spend { user_id := 1, wallet := [("coins", 5)], experience := 2 } "coins" 7)) ∧
    RecordNonneg (grantExperience
      { user_id := 1, wallet := [("coins", 5)], experience := 2 } (-5)) :=
  ⟨⟨by decide, by decide⟩,
   (nonneg_preserved { user_id := 1, wallet := [("coins", 5)], experience := 2 }
     ⟨by decide, by decide⟩).1 "coins" 7,
   (nonneg_preserved { user_id := 1, wallet := [("coins", 5)], experience := 2 }
     ⟨by decide, by decide⟩).2.2.2.1 (-5)⟩

end CardForge
